import Mathlib

/-!
# GCTracer: a shallow embedding of `GCTracer.cpp`

The tool keeps a fixed array `memValues` of `LOG_SIZE` access records with a
write offset `arrayOffset`, appends one record per memory access of the
traced thread (`record_mem`), and expands every record into one line per
8-byte chunk when the array is full and at exit (`writeOutMemLog`, `Fini`).

Modelling conventions.

* `ADDRINT` and `UINT64` are natural numbers with an explicit `% 2 ^ 64`
  wherever the C++ arithmetic can wrap.
* The two output streams (`*out` and `cerr`) are one chronological list of
  tagged writes; one entry is the text that precedes one `endl`.
* Every `for` loop is a recursion on a fuel argument whose guard is evaluated
  as in the source; `fuel` is the iteration budget of each single loop.
  Exhausting it yields `Outcome.timeout`.
* `ASSERTX(false)` halts the process: `Outcome.abort`.
-/

namespace GCTracer

/-! ## Data model -/

/-- Width of `ADDRINT` and `UINT64`. -/
def WORD : Nat := 2 ^ 64

/-- Source: `#define LOG_SIZE 1000000`. -/
def LOG_SIZE : Nat := 1000000

/-- Source: `#define ACCESS_SIZE 8`. -/
def ACCESS_SIZE : Nat := 8

/-- Enumerators of `mem_operations`. -/
def LOAD_OP : Nat := 0

/-- Second enumerator of `mem_operations`. -/
def STORE_OP : Nat := 1

/-- Third enumerator of `mem_operations`. -/
def INSTRUCTION_OP : Nat := 2

/-- Source: `struct MEM_INFO`. The operation is kept as the integer that
`(mem_operations)mem_type` stores. -/
structure MEM_INFO where
  address : Nat
  mem_op_type : Nat
  access_size : Nat
  cycle_num : Nat
  deriving DecidableEq, Repr

/-- Source: the default constructor `MEM_INFO()`. -/
def MEM_INFO.default : MEM_INFO := ⟨0, LOAD_OP, 0, 0⟩

/-- The two streams the tool writes to. -/
inductive Stream where
  | out
  | cerr
  deriving DecidableEq, Repr

/-- The global variables of the tool together with everything written so far. -/
structure State where
  log : List (Stream × String)
  withinGC : Bool
  gcThreadid : Nat
  somethingFailed : Bool
  arrayOffset : Nat
  memValues : Nat → MEM_INFO

/-- Static initialisation of the globals. -/
def State.init : State :=
  { log := []
    withinGC := false
    gcThreadid := 0
    somethingFailed := false
    arrayOffset := 0
    memValues := fun _ => MEM_INFO.default }

/-- One `stream << text << endl`. -/
def State.write (s : State) (t : Stream) (text : String) : State :=
  { s with log := s.log ++ [(t, text)] }

/-- The lines written through `*out`, oldest first. -/
def State.outLines (s : State) : List String :=
  (s.log.filter (fun e => e.1 = Stream.out)).map Prod.snd

/-- The lines written to `cerr`, oldest first. -/
def State.cerrLines (s : State) : List String :=
  (s.log.filter (fun e => e.1 = Stream.cerr)).map Prod.snd

/-- The records currently buffered: slots `0 .. arrayOffset - 1`. -/
def State.pending (s : State) : List MEM_INFO :=
  (List.range s.arrayOffset).map s.memValues

/-- How a call ends. -/
inductive Outcome where
  | ok (s : State)
  | abort (s : State)
  | timeout (s : State)

/-- The state in which a call ended. -/
def Outcome.state : Outcome → State
  | .ok s => s
  | .abort s => s
  | .timeout s => s

/-- The call returned normally. -/
def Outcome.isOk : Outcome → Bool
  | .ok _ => true
  | _ => false

/-- The call halted the process through a failed assertion. -/
def Outcome.isAbort : Outcome → Bool
  | .abort _ => true
  | _ => false

/-- The call exhausted its iteration budget. -/
def Outcome.isTimeout : Outcome → Bool
  | .timeout _ => true
  | _ => false

/-! ## Formatting -/

/-- One hexadecimal digit as printed under `std::uppercase`. -/
def hexDigit (d : Nat) : Char :=
  if d < 10 then Char.ofNat (48 + d) else Char.ofNat (55 + d)

/-- Digits of `n` in base 16, most significant first, in front of `acc`. -/
def hexDigitsAux : Nat → Nat → List Char → List Char
  | 0, _, acc => acc
  | fuel + 1, n, acc =>
    if n / 16 = 0 then hexDigit (n % 16) :: acc
    else hexDigitsAux fuel (n / 16) (hexDigit (n % 16) :: acc)

/-- Source: `std::hex << std::uppercase << addr` for an unsigned integer. -/
def hexUpper (n : Nat) : String :=
  String.mk (hexDigitsAux (n + 1) n [])

/-- Source: `std::dec << data.cycle_num`. -/
def decimal (n : Nat) : String :=
  Nat.repr n

/-- Source: `cerr << mem_op`. The enumeration reaches the stream promoted to
`int`, so the 32-bit value that `(mem_operations)mem_type` stored is printed as
a signed number. -/
def signedDecimal (v : Nat) : String :=
  if v % 2 ^ 32 < 2 ^ 31 then decimal (v % 2 ^ 32) else "-" ++ decimal (2 ^ 32 - v % 2 ^ 32)

/-- Source: `mask`, i.e. `ea & ~static_cast<ADDRINT>(ACCESS_SIZE-1)`. -/
def mask (ea : Nat) : Nat :=
  ea &&& ((ACCESS_SIZE - 1) ^^^ (WORD - 1))

/-- Source: `memOpToString`. The default branch writes to `cerr` and fails the
assertion; the error carries the state in which the process halts. -/
def memOpToString (mem_op : Nat) (s : State) : Except State String :=
  match mem_op with
  | 0 => .ok "READ   "
  | 1 => .ok "WRITE  "
  | 2 => .ok "IFETCH "
  | _ => .error (s.write Stream.cerr ("didn't recognize mem op type: " ++ signedDecimal mem_op))

/-- The text of one output line of `writeOutMemLog`. -/
def formatLine (addr : Nat) (access_type : String) (cycle_num : Nat) : String :=
  "0x" ++ hexUpper addr ++ " " ++ access_type ++ decimal cycle_num

/-! ## Flushing -/

/-- Source: `mask(data.address)`. -/
def chunkStart (data : MEM_INFO) : Nat :=
  mask data.address

/-- Source: `mask(data.address + data.access_size - 1)` in `ADDRINT` arithmetic. -/
def chunkEnd (data : MEM_INFO) : Nat :=
  mask ((data.address + data.access_size + (WORD - 1)) % WORD)

/-- Source: the inner loop of `writeOutMemLog`,
`for (addr = start; addr <= end; addr += ACCESS_SIZE)`. -/
def chunkLoop (data : MEM_INFO) (end_ : Nat) : Nat → Nat → State → Outcome
  | 0, _, s => .timeout s
  | fuel + 1, addr, s =>
    if addr ≤ end_ then
      match memOpToString data.mem_op_type s with
      | .ok access_type =>
        chunkLoop data end_ fuel ((addr + ACCESS_SIZE) % WORD)
          (s.write Stream.out (formatLine addr access_type data.cycle_num))
      | .error s1 => .abort s1
    else .ok s

/-- Source: the body of the outer loop of `writeOutMemLog` for one record. -/
def writeRecord (fuel : Nat) (data : MEM_INFO) (s : State) : Outcome :=
  chunkLoop data (chunkEnd data) fuel (chunkStart data) s

/-- Source: the outer loop of `writeOutMemLog`,
`for (i = 0; i < arrayOffset; i++)`. -/
def recordLoop (fuel : Nat) : Nat → Nat → State → Outcome
  | 0, _, s => .timeout s
  | k + 1, i, s =>
    if i < s.arrayOffset then
      match writeRecord fuel (s.memValues i) s with
      | .ok s1 => recordLoop fuel k ((i + 1) % WORD) s1
      | r => r
    else .ok s

/-- Source: `writeOutMemLog`. -/
def writeOutMemLog (fuel : Nat) (s : State) : Outcome :=
  recordLoop fuel fuel 0 s

/-! ## Analysis routine and region callbacks -/

/-- Source: `record_mem`. -/
def record_mem (fuel : Nat) (s : State) (threadid memea length mem_type : Nat) : Outcome :=
  if threadid ≠ s.gcThreadid then .ok s
  else
    let s1 : State :=
      { s with
        memValues := fun i =>
          if i = s.arrayOffset then ⟨memea, mem_type, length, 0⟩ else s.memValues i
        arrayOffset := (s.arrayOffset + 1) % WORD }
    if s1.arrayOffset = LOG_SIZE then
      match writeOutMemLog fuel (s1.write Stream.cerr "this happened") with
      | .ok s2 => .ok { s2 with arrayOffset := 0 }
      | r => r
    else .ok s1

/-- Source: `CallSimulationBegin`; `PIN_RemoveInstrumentation` does not touch
the tool state. -/
def CallSimulationBegin (s : State) (threadid : Nat) : State :=
  { s with gcThreadid := threadid, withinGC := true }

/-- Source: `CallSimulationEnd`. -/
def CallSimulationEnd (s : State) (_threadid : Nat) : State :=
  { s with withinGC := false }

/-- Source: `CallSimulationExit`. -/
def CallSimulationExit (s : State) (_threadid : Nat) : State :=
  s

/-- Source: `failurePrintout`. -/
def failurePrintout (s : State) (message : String) : Outcome :=
  .abort { (s.write Stream.out message).write Stream.cerr message with somethingFailed := true }

/-- Source: `Fini`. -/
def Fini (fuel : Nat) (s : State) : Outcome :=
  let s1 :=
    if s.somethingFailed then
      (s.write Stream.out "something failed so I'm not printing out any results").write
        Stream.cerr "something failed so I'm not printing out any results"
    else s
  writeOutMemLog fuel s1

/-! ## Instrumentation -/

/-- The three facts `Trace` asks of an instruction. -/
structure INS where
  isMemoryRead : Bool
  hasMemoryRead2 : Bool
  isMemoryWrite : Bool
  deriving DecidableEq, Repr

/-- Operand whose effective address an inserted call receives. -/
inductive Operand where
  | memoryRead
  | memoryRead2
  | memoryWrite
  deriving DecidableEq, Repr

/-- Source: the calls to `record_mem` that the body of `Trace` inserts before
one instruction, each with the constant it passes as `mem_type`. -/
def insCalls (ins : INS) : List (Operand × Nat) :=
  (if ins.isMemoryRead then [(Operand.memoryRead, LOAD_OP)] else [])
    ++ (if ins.hasMemoryRead2 then [(Operand.memoryRead2, LOAD_OP)] else [])
    ++ (if ins.isMemoryWrite then [(Operand.memoryWrite, STORE_OP)] else [])

/-- Source: `Trace`; a trace is a list of basic blocks, the result lists the
inserted calls in order. -/
def Trace (s : State) (trace : List (List INS)) : List (Operand × Nat) :=
  if !s.withinGC then []
  else (trace.map (fun bbl => (bbl.map insCalls).flatten)).flatten

/-! ## Runs -/

/-- Events delivered by the instrumentation engine. -/
inductive Event where
  | simulationBegin (threadid : Nat)
  | simulationEnd (threadid : Nat)
  | simulationExit (threadid : Nat)
  | access (threadid memea length mem_type : Nat)
  deriving DecidableEq, Repr

/-- Dispatch of one event to its callback. -/
def step (fuel : Nat) (s : State) : Event → Outcome
  | .simulationBegin t => .ok (CallSimulationBegin s t)
  | .simulationEnd t => .ok (CallSimulationEnd s t)
  | .simulationExit t => .ok (CallSimulationExit s t)
  | .access t ea len ty => record_mem fuel s t ea len ty

/-- Events are handled one after the other until one of them halts. -/
def run (fuel : Nat) : State → List Event → Outcome
  | s, [] => .ok s
  | s, e :: es =>
    match step fuel s e with
    | .ok s1 => run fuel s1 es
    | r => r

/-- A whole execution: the events, then `Fini` at exit. -/
def runToExit (fuel : Nat) (s : State) (es : List Event) : Outcome :=
  match run fuel s es with
  | .ok s1 => Fini fuel s1
  | r => r

/-! ## Closed forms used to state what a flush writes -/

/-- Appending a block of writes to the streams. -/
def State.emit (s : State) (l : List (Stream × String)) : State :=
  { s with log := s.log ++ l }

/-- The text `memOpToString` returns, including the unreachable `return ""`. -/
def opText (mem_op : Nat) : String :=
  match mem_op with
  | 0 => "READ   "
  | 1 => "WRITE  "
  | 2 => "IFETCH "
  | _ => ""

/-- Number of iterations of the chunk loop of a record whose last chunk is
below the highest aligned address. -/
def chunkCount (d : MEM_INFO) : Nat :=
  if chunkStart d ≤ chunkEnd d then (chunkEnd d - chunkStart d) / 8 + 1 else 0

/-- The chunk addresses the loop visits for such a record. -/
def chunkAddrs (d : MEM_INFO) : List Nat :=
  List.range' (chunkStart d) (chunkCount d) ACCESS_SIZE

/-- The lines written for such a record. -/
def recordLines (d : MEM_INFO) : List String :=
  (chunkAddrs d).map (fun a => formatLine a (opText d.mem_op_type) d.cycle_num)

/-- The writes a flush performs for such a record. -/
def recordWrites (d : MEM_INFO) : List (Stream × String) :=
  (recordLines d).map (fun l => (Stream.out, l))

/-- A record the flush handles and leaves: the operation is one of the three
enumerators and the last chunk is not the highest aligned address. -/
def Good (d : MEM_INFO) : Prop :=
  d.mem_op_type ≤ 2 ∧ chunkEnd d + 8 < WORD

instance (d : MEM_INFO) : Decidable (Good d) := by
  unfold Good; infer_instance

/-- The state after the assignment `memValues[arrayOffset++] = d`. -/
def State.store (s : State) (d : MEM_INFO) : State :=
  { s with
    memValues := fun i => if i = s.arrayOffset then d else s.memValues i
    arrayOffset := (s.arrayOffset + 1) % WORD }

/-- The records `record_mem` accepts along a sequence of events when the
traced thread is `g` at its start: it compares with `gcThreadid`, which only
`CallSimulationBegin` assigns. -/
def accepted (g : Nat) : List Event → List MEM_INFO
  | [] => []
  | .simulationBegin t :: es => accepted t es
  | .simulationEnd _ :: es => accepted g es
  | .simulationExit _ :: es => accepted g es
  | .access t ea len ty :: es =>
    if t = g then ⟨ea, ty, len, 0⟩ :: accepted g es else accepted g es

/-- The assignment `arrayOffset = 0` after an automatic flush. -/
def State.restart (s : State) : State :=
  { s with arrayOffset := 0 }

/-- The `*out` part of a block of writes. -/
def outOf (l : List (Stream × String)) : List String :=
  (l.filter (fun e => e.1 = Stream.out)).map Prod.snd

/-- The `cerr` part of a block of writes. -/
def cerrOf (l : List (Stream × String)) : List String :=
  (l.filter (fun e => e.1 = Stream.cerr)).map Prod.snd

/-- The access event that delivers record `d` on thread `g`. -/
def accessOf (g : Nat) (d : MEM_INFO) : Event :=
  Event.access g d.address d.access_size d.mem_op_type

/-- What holds between two events of a run that has not halted: the write
offset is inside the array and every buffered record is good. -/
def Inv (s : State) : Prop :=
  s.arrayOffset < LOG_SIZE ∧ ∀ d ∈ s.pending, Good d

/-- The state in which a flush halts when the record in slot `i` is the first
one it cannot name: the lines of the slots before `i`, then the message of
`memOpToString`. -/
def haltedAt (s : State) (i : Nat) : State :=
  s.emit (((List.range i).map s.memValues).flatMap recordWrites ++
    [(Stream.cerr,
      "didn't recognize mem op type: " ++ signedDecimal (s.memValues i).mem_op_type)])

/-- The text of one output line, spelled out. -/
def lineText (d : MEM_INFO) (c : Nat) : String :=
  "0x" ++ hexUpper c ++ " " ++ opText d.mem_op_type ++ decimal d.cycle_num

/-- The state of Scenario D just before exit, with one good record in front:
thread 5 is traced, has read 4 bytes at `0x2000`, and has delivered an access
at `0x1000` with operation 7. -/
def scenarioD : State :=
  ((CallSimulationBegin State.init 5).store (MEM_INFO.mk 0x2000 0 4 0)).store
    (MEM_INFO.mk 0x1000 7 4 0)

/-! ## The specification's description of the lines of one access -/

/-- Specification: the number of lines of an access,
`floor((address+sizeBytes-1)/8) - floor(address/8) + 1`, over the naturals. -/
def specCount (address sizeBytes : Nat) : Nat :=
  (address + sizeBytes - 1) / 8 - address / 8 + 1

/-- Specification: the chunk addresses of an access, from the aligned address
upwards in steps of 8. -/
def specChunks (address sizeBytes : Nat) : List Nat :=
  List.range' (mask address) (specCount address sizeBytes) 8

/-- Specification: the lines of a record, one per chunk. -/
def specLines (d : MEM_INFO) : List String :=
  (specChunks d.address d.access_size).map
    (fun c => formatLine c (opText d.mem_op_type) d.cycle_num)

/-- An access of the data model that stays below the highest aligned chunk:
a recognised operation, at least one byte, and the last byte
`address + size - 1` below `2 ^ 64 - 8`. -/
def Regular (d : MEM_INFO) : Prop :=
  d.mem_op_type ≤ 2 ∧ 1 ≤ d.access_size ∧ d.address + d.access_size - 1 < WORD - 8

instance (d : MEM_INFO) : Decidable (Regular d) := by
  unfold Regular; infer_instance

/-! ## Arithmetic of `mask` -/

theorem WORD_eq : WORD = 18446744073709551616 := by
  decide

theorem mask_const : (ACCESS_SIZE - 1) ^^^ (WORD - 1) = (2 ^ 61 - 1) <<< 3 := by
  decide

theorem mask_eq_mod (ea : Nat) : mask ea = ea % WORD / 8 * 8 := by
  unfold mask
  rw [mask_const]
  have e : ea % WORD / 8 * 8 = ((ea % 2 ^ 64) >>> 3) <<< 3 := by
    simp [Nat.shiftLeft_eq, Nat.shiftRight_eq_div_pow, WORD]
  rw [e]
  apply Nat.eq_of_testBit_eq
  intro i
  simp only [Nat.testBit_and, Nat.testBit_shiftLeft, Nat.testBit_shiftRight,
    Nat.testBit_two_pow_sub_one, Nat.testBit_mod_two_pow]
  by_cases h3 : 3 ≤ i
  · have e1 : 3 + (i - 3) = i := by omega
    by_cases h64 : i < 64
    · have e2 : i - 3 < 61 := by omega
      simp [h3, e1, e2, h64]
    · have e2 : ¬ i - 3 < 61 := by omega
      simp [h3, e1, e2, h64]
  · simp [h3]

theorem mask_eq (ea : Nat) (h : ea < WORD) : mask ea = ea / 8 * 8 := by
  rw [mask_eq_mod, Nat.mod_eq_of_lt h]

theorem mask_mod (ea : Nat) : mask ea % 8 = 0 := by
  rw [mask_eq_mod]; omega

theorem mask_lt (ea : Nat) : mask ea + 8 ≤ WORD := by
  rw [mask_eq_mod]
  have := Nat.mod_lt ea (show 0 < WORD by decide)
  rw [WORD_eq] at *
  omega

/-! ## The chunk loop -/

theorem emit_nil (s : State) : s.emit [] = s := by
  simp [State.emit]

theorem emit_emit (s : State) (a b : List (Stream × String)) :
    (s.emit a).emit b = s.emit (a ++ b) := by
  simp [State.emit]

theorem write_eq_emit (s : State) (t : Stream) (x : String) : s.write t x = s.emit [(t, x)] :=
  rfl

theorem memOpToString_ok (mem_op : Nat) (s : State) (h : mem_op ≤ 2) :
    memOpToString mem_op s = .ok (opText mem_op) := by
  have : mem_op = 0 ∨ mem_op = 1 ∨ mem_op = 2 := by omega
  rcases this with h | h | h <;> subst h <;> rfl

theorem memOpToString_error (mem_op : Nat) (s : State) (h : 2 < mem_op) :
    memOpToString mem_op s =
      .error (s.write Stream.cerr
        ("didn't recognize mem op type: " ++ signedDecimal mem_op)) := by
  match mem_op, h with
  | n + 3, _ => rfl

/-- The loop started at `addr` visits `count` chunks and leaves when the next
address passes `end_` without wrapping. -/
theorem chunkLoop_ok (d : MEM_INFO) (end_ : Nat) (hop : d.mem_op_type ≤ 2) :
    ∀ (count addr fuel : Nat) (s : State), count < fuel →
      (∀ j, j < count → addr + 8 * j ≤ end_) → end_ < addr + 8 * count →
      addr + 8 * count < WORD →
      chunkLoop d end_ fuel addr s =
        .ok (s.emit ((List.range' addr count ACCESS_SIZE).map
          (fun a => (Stream.out, formatLine a (opText d.mem_op_type) d.cycle_num)))) := by
  intro count
  induction count with
  | zero =>
    intro addr fuel s hf _ hend _
    obtain ⟨f, rfl⟩ : ∃ f, fuel = f + 1 := ⟨fuel - 1, by omega⟩
    have : ¬ addr ≤ end_ := by omega
    simp [chunkLoop, this, emit_nil]
  | succ c ih =>
    intro addr fuel s hf hin hend hw
    obtain ⟨f, rfl⟩ : ∃ f, fuel = f + 1 := ⟨fuel - 1, by omega⟩
    have h0 : addr ≤ end_ := by simpa using hin 0 (by omega)
    have hmod : (addr + ACCESS_SIZE) % WORD = addr + 8 := by
      apply Nat.mod_eq_of_lt
      simp only [ACCESS_SIZE]; omega
    rw [chunkLoop, if_pos h0, memOpToString_ok _ _ hop]
    simp only [hmod]
    rw [ih (addr + 8) f _ (by omega) (fun j hj => by have := hin (j + 1) (by omega); omega)
      (by omega) (by omega)]
    simp [write_eq_emit, emit_emit, List.range'_succ, ACCESS_SIZE]

theorem chunkStart_mod (d : MEM_INFO) : chunkStart d % 8 = 0 :=
  mask_mod _

theorem chunkEnd_mod (d : MEM_INFO) : chunkEnd d % 8 = 0 :=
  mask_mod _

theorem chunkCount_lt (d : MEM_INFO) (h : chunkEnd d + 8 < WORD) : chunkCount d < 2 ^ 61 := by
  unfold chunkCount
  rw [WORD_eq] at h
  split <;> omega

/-- One record whose last chunk is below the highest aligned address: the loop
returns after writing the record's lines. -/
theorem writeRecord_lines (d : MEM_INFO) (h : Good d) (fuel : Nat) (hf : chunkCount d < fuel)
    (s : State) : writeRecord fuel d s = .ok (s.emit (recordWrites d)) := by
  obtain ⟨hop, hend⟩ := h
  have hs := chunkStart_mod d
  have he := chunkEnd_mod d
  unfold writeRecord
  rw [chunkLoop_ok d (chunkEnd d) hop (chunkCount d) (chunkStart d) fuel s hf]
  · simp [recordWrites, recordLines, chunkAddrs, List.map_map, Function.comp_def]
  · intro j hj
    unfold chunkCount at hj
    split at hj <;> omega
  · unfold chunkCount
    split <;> omega
  · have hsl : chunkStart d + 8 ≤ WORD := mask_lt _
    rw [WORD_eq] at *
    unfold chunkCount
    split <;> omega

theorem writeRecord_good (d : MEM_INFO) (h : Good d) (fuel : Nat) (hf : 2 ^ 61 ≤ fuel)
    (s : State) : writeRecord fuel d s = .ok (s.emit (recordWrites d)) :=
  writeRecord_lines d h fuel (lt_of_lt_of_le (chunkCount_lt d h.2) hf) s

/-- With the highest aligned address as last chunk the guard `addr <= end`
holds at every aligned address, so the loop never leaves. -/
theorem chunkLoop_top (d : MEM_INFO) (hop : d.mem_op_type ≤ 2) :
    ∀ (fuel addr : Nat) (s : State), addr % 8 = 0 → addr < WORD →
      ∃ s1, chunkLoop d (WORD - 8) fuel addr s = .timeout s1 ∧
        s1.log.length = s.log.length + fuel := by
  intro fuel
  induction fuel with
  | zero => intro addr s _ _; exact ⟨s, rfl, rfl⟩
  | succ f ih =>
    intro addr s hm hlt
    have h0 : addr ≤ WORD - 8 := by rw [WORD_eq] at *; omega
    have h1 : (addr + ACCESS_SIZE) % WORD % 8 = 0 := by
      simp only [ACCESS_SIZE]; rw [WORD_eq]; omega
    have h2 : (addr + ACCESS_SIZE) % WORD < WORD := Nat.mod_lt _ (by decide)
    rw [chunkLoop, if_pos h0, memOpToString_ok _ _ hop]
    obtain ⟨s1, e, hl⟩ := ih ((addr + ACCESS_SIZE) % WORD)
      (s.write Stream.out (formatLine addr (opText d.mem_op_type) d.cycle_num)) h1 h2
    refine ⟨s1, e, ?_⟩
    rw [hl]
    simp [State.write]
    omega

/-! ## The record loop -/

theorem recordLoop_good (fuel : Nat) (hf : 2 ^ 61 ≤ fuel) :
    ∀ (m i k : Nat) (s : State), s.arrayOffset = i + m → i + m < WORD → m < k →
      (∀ j, i ≤ j → j < i + m → Good (s.memValues j)) →
      recordLoop fuel k i s =
        .ok (s.emit ((List.range' i m).flatMap (fun j => recordWrites (s.memValues j)))) := by
  intro m
  induction m with
  | zero =>
    intro i k s hn _ hk _
    obtain ⟨k, rfl⟩ : ∃ k1, k = k1 + 1 := ⟨k - 1, by omega⟩
    have : ¬ i < s.arrayOffset := by omega
    simp [recordLoop, this, emit_nil]
  | succ m ih =>
    intro i k s hn hw hk hg
    obtain ⟨k, rfl⟩ : ∃ k1, k = k1 + 1 := ⟨k - 1, by omega⟩
    have h0 : i < s.arrayOffset := by omega
    have hmod : (i + 1) % WORD = i + 1 := Nat.mod_eq_of_lt (by omega)
    rw [recordLoop, if_pos h0, writeRecord_good _ (hg i (le_refl _) (by omega)) fuel hf]
    simp only [hmod]
    rw [ih (i + 1) k _ (by simp [State.emit]; omega) (by omega) (by omega)
      (fun j h1 h2 => by simpa [State.emit] using hg j (by omega) (by omega))]
    simp [emit_emit, List.range'_succ, State.emit]

/-- A flush of a buffer of good records returns after writing the lines of the
buffered records in slot order; nothing but the streams changes. -/
theorem writeOutMemLog_good (fuel : Nat) (hf : 2 ^ 61 ≤ fuel) (s : State)
    (hn : s.arrayOffset ≤ LOG_SIZE) (hg : ∀ d ∈ s.pending, Good d) :
    writeOutMemLog fuel s = .ok (s.emit (s.pending.flatMap recordWrites)) := by
  unfold writeOutMemLog
  have hL : LOG_SIZE = 1000000 := rfl
  rw [recordLoop_good fuel hf s.arrayOffset 0 fuel s (by simp) (by rw [WORD_eq]; omega)
    (by omega)]
  · simp [State.pending, List.range_eq_range', List.flatMap_map]
  · intro j _ hj
    apply hg
    simp only [State.pending, List.mem_map, List.mem_range]
    exact ⟨j, by omega, rfl⟩

/-! ## Frame: a flush only writes to the streams -/

theorem chunkLoop_frame (d : MEM_INFO) (end_ : Nat) :
    ∀ (fuel addr : Nat) (s : State), ∃ l, (chunkLoop d end_ fuel addr s).state = s.emit l := by
  intro fuel
  induction fuel with
  | zero => intro addr s; exact ⟨[], by simp [chunkLoop, Outcome.state, emit_nil]⟩
  | succ f ih =>
    intro addr s
    rw [chunkLoop]
    split
    · by_cases hop : d.mem_op_type ≤ 2
      · rw [memOpToString_ok _ _ hop]
        obtain ⟨l, hl⟩ := ih ((addr + ACCESS_SIZE) % WORD)
          (s.write Stream.out (formatLine addr (opText d.mem_op_type) d.cycle_num))
        exact ⟨_, by rw [hl, write_eq_emit, emit_emit]⟩
      · rw [memOpToString_error _ _ (by omega)]
        exact ⟨[(Stream.cerr,
          "didn't recognize mem op type: " ++ signedDecimal d.mem_op_type)], rfl⟩
    · exact ⟨[], by simp [Outcome.state, emit_nil]⟩

theorem recordLoop_frame (fuel : Nat) :
    ∀ (k i : Nat) (s : State), ∃ l, (recordLoop fuel k i s).state = s.emit l := by
  intro k
  induction k with
  | zero => intro i s; exact ⟨[], by simp [recordLoop, Outcome.state, emit_nil]⟩
  | succ k ih =>
    intro i s
    rw [recordLoop]
    split
    · obtain ⟨l, hl⟩ := chunkLoop_frame (s.memValues i) (chunkEnd (s.memValues i)) fuel
        (chunkStart (s.memValues i)) s
      unfold writeRecord
      generalize chunkLoop (s.memValues i) (chunkEnd (s.memValues i)) fuel
        (chunkStart (s.memValues i)) s = r at hl
      cases r with
      | ok s1 =>
        simp only [Outcome.state] at hl
        subst hl
        obtain ⟨l2, hl2⟩ := ih ((i + 1) % WORD) (s.emit l)
        exact ⟨_, by rw [hl2, emit_emit]⟩
      | abort s1 => exact ⟨l, hl⟩
      | timeout s1 => exact ⟨l, hl⟩
    · exact ⟨[], by simp [Outcome.state, emit_nil]⟩

theorem writeOutMemLog_frame (fuel : Nat) (s : State) :
    ∃ l, (writeOutMemLog fuel s).state = s.emit l :=
  recordLoop_frame fuel fuel 0 s

/-! ## Appending -/

theorem record_mem_other (fuel : Nat) (s : State) (threadid memea length mem_type : Nat)
    (h : threadid ≠ s.gcThreadid) :
    record_mem fuel s threadid memea length mem_type = .ok s := by
  simp [record_mem, h]

theorem record_mem_accept (fuel : Nat) (s : State) (threadid memea length mem_type : Nat)
    (h : threadid = s.gcThreadid) :
    record_mem fuel s threadid memea length mem_type =
      if (s.store ⟨memea, mem_type, length, 0⟩).arrayOffset = LOG_SIZE then
        match writeOutMemLog fuel
          ((s.store ⟨memea, mem_type, length, 0⟩).write Stream.cerr "this happened") with
        | .ok s2 => .ok { s2 with arrayOffset := 0 }
        | r => r
      else .ok (s.store ⟨memea, mem_type, length, 0⟩) := by
  simp [record_mem, h, State.store]

theorem store_offset (s : State) (d : MEM_INFO) (h : s.arrayOffset < LOG_SIZE) :
    (s.store d).arrayOffset = s.arrayOffset + 1 := by
  have hL : LOG_SIZE = 1000000 := rfl
  simp only [State.store]
  exact Nat.mod_eq_of_lt (by rw [WORD_eq]; omega)

theorem store_pending (s : State) (d : MEM_INFO) (h : s.arrayOffset < LOG_SIZE) :
    (s.store d).pending = s.pending ++ [d] := by
  unfold State.pending
  rw [store_offset s d h, List.range_succ, List.map_append]
  congr 1
  · apply List.map_congr_left
    intro i hi
    have : i ≠ s.arrayOffset := by
      have := List.mem_range.1 hi
      omega
    simp [State.store, this]
  · simp [State.store]

/-! ## Lines on `*out` -/

theorem outOf_append (a b : List (Stream × String)) : outOf (a ++ b) = outOf a ++ outOf b := by
  simp [outOf]

theorem outOf_recordWrites (d : MEM_INFO) : outOf (recordWrites d) = recordLines d := by
  simp [outOf, recordWrites, List.filter_map, Function.comp_def]

theorem outOf_flatMap (ds : List MEM_INFO) :
    outOf (ds.flatMap recordWrites) = ds.flatMap recordLines := by
  induction ds with
  | nil => rfl
  | cons d ds ih => simp [List.flatMap_cons, outOf_append, outOf_recordWrites, ih]

theorem outLines_emit (s : State) (l : List (Stream × String)) :
    (s.emit l).outLines = s.outLines ++ outOf l := by
  simp [State.outLines, State.emit, outOf]

/-! ## One accepted access -/

/-- Below capacity an accepted access is stored and nothing is written. -/
theorem record_mem_store (fuel : Nat) (s : State) (t ea len ty : Nat)
    (ht : t = s.gcThreadid) (hn : s.arrayOffset + 1 < LOG_SIZE) :
    record_mem fuel s t ea len ty = .ok (s.store ⟨ea, ty, len, 0⟩) := by
  rw [record_mem_accept fuel s t ea len ty ht, store_offset s _ (by omega), if_neg (by omega)]

/-- The access that fills the array flushes all `LOG_SIZE` records after the
note on `cerr` and resets the offset. -/
theorem record_mem_flush (fuel : Nat) (hf : 2 ^ 61 ≤ fuel) (s : State) (t ea len ty : Nat)
    (ht : t = s.gcThreadid) (hn : s.arrayOffset + 1 = LOG_SIZE)
    (hg : ∀ d ∈ s.pending, Good d) (hd : Good (MEM_INFO.mk ea ty len 0)) :
    record_mem fuel s t ea len ty =
      .ok ((s.store (MEM_INFO.mk ea ty len 0)).emit ((Stream.cerr, "this happened") ::
              (s.pending ++ [MEM_INFO.mk ea ty len 0]).flatMap recordWrites)).restart := by
  have hlt : s.arrayOffset < LOG_SIZE := by omega
  have hp : ((s.store (MEM_INFO.mk ea ty len 0)).write Stream.cerr "this happened").pending =
      s.pending ++ [MEM_INFO.mk ea ty len 0] := by
    rw [← store_pending s _ hlt]; rfl
  have ho : ((s.store (MEM_INFO.mk ea ty len 0)).write Stream.cerr "this happened").arrayOffset =
      LOG_SIZE := by
    rw [← hn, ← store_offset s (MEM_INFO.mk ea ty len 0) hlt]; rfl
  rw [record_mem_accept fuel s t ea len ty ht, store_offset s _ hlt, if_pos hn,
    writeOutMemLog_good fuel hf _ (by rw [ho]) (by
      rw [hp]
      intro d hdm
      rcases List.mem_append.1 hdm with h | h
      · exact hg d h
      · simp only [List.mem_singleton] at h
        subst h
        exact hd), hp]
  simp only [write_eq_emit, emit_emit, List.singleton_append]
  rfl

theorem restart_pending (s : State) : s.restart.pending = [] := by
  simp [State.restart, State.pending]

/-- One access of good shape keeps the run going and adds its lines, written
or still buffered, exactly when it is accepted. -/
theorem record_mem_good (fuel : Nat) (hf : 2 ^ 61 ≤ fuel) (s : State) (hi : Inv s)
    (t ea len ty : Nat) (hd : Good (MEM_INFO.mk ea ty len 0)) :
    ∃ s1, record_mem fuel s t ea len ty = .ok s1 ∧ Inv s1 ∧
      s1.somethingFailed = s.somethingFailed ∧ s1.gcThreadid = s.gcThreadid ∧
      s1.outLines ++ s1.pending.flatMap recordLines =
        s.outLines ++ s.pending.flatMap recordLines ++
          (if t = s.gcThreadid then recordLines (MEM_INFO.mk ea ty len 0) else []) := by
  obtain ⟨hn, hg⟩ := hi
  by_cases ht : t = s.gcThreadid
  · by_cases hfull : s.arrayOffset + 1 = LOG_SIZE
    · refine ⟨_, record_mem_flush fuel hf s t ea len ty ht hfull hg hd, ?_, rfl, rfl, ?_⟩
      · refine ⟨by simp [State.restart, LOG_SIZE], ?_⟩
        rw [restart_pending]
        intro d hdm
        cases hdm
      · rw [restart_pending, if_pos ht]
        have : ∀ x : State, x.restart.outLines = x.outLines := fun _ => rfl
        rw [this, outLines_emit]
        have e1 : (s.store (MEM_INFO.mk ea ty len 0)).outLines = s.outLines := rfl
        rw [e1]
        have e2 : outOf [(Stream.cerr, "this happened")] = [] := by decide
        rw [← List.singleton_append, outOf_append, e2, outOf_flatMap]
        simp
    · have hlt : s.arrayOffset + 1 < LOG_SIZE := by omega
      refine ⟨_, record_mem_store fuel s t ea len ty ht hlt, ?_, rfl, rfl, ?_⟩
      · refine ⟨by rw [store_offset s _ hn]; exact hlt, ?_⟩
        rw [store_pending s _ hn]
        intro d hdm
        rcases List.mem_append.1 hdm with h | h
        · exact hg d h
        · simp only [List.mem_singleton] at h
          subst h
          exact hd
      · rw [store_pending s _ hn, if_pos ht]
        have e1 : (s.store (MEM_INFO.mk ea ty len 0)).outLines = s.outLines := rfl
        rw [e1]
        simp
  · refine ⟨s, record_mem_other fuel s t ea len ty ht, ⟨hn, hg⟩, rfl, rfl, ?_⟩
    simp [ht]

/-- A run over events whose accesses have good shape does not halt; what is
written plus what is still buffered grows by the lines of the accepted records,
in arrival order. -/
theorem run_good (fuel : Nat) (hf : 2 ^ 61 ≤ fuel) :
    ∀ (es : List Event) (s : State), Inv s →
      (∀ t ea len ty, Event.access t ea len ty ∈ es → Good (MEM_INFO.mk ea ty len 0)) →
      ∃ s1, run fuel s es = .ok s1 ∧ Inv s1 ∧ s1.somethingFailed = s.somethingFailed ∧
        s1.outLines ++ s1.pending.flatMap recordLines =
          s.outLines ++ s.pending.flatMap recordLines ++
            (accepted s.gcThreadid es).flatMap recordLines := by
  intro es
  induction es with
  | nil => intro s hi _; exact ⟨s, rfl, hi, rfl, by simp [accepted]⟩
  | cons e es ih =>
    intro s hi hes
    have hes1 : ∀ t ea len ty, Event.access t ea len ty ∈ es → Good (MEM_INFO.mk ea ty len 0) :=
      fun t ea len ty h => hes t ea len ty (List.mem_cons_of_mem _ h)
    cases e with
    | simulationBegin t =>
      obtain ⟨s1, h1, h2, h3, h4⟩ := ih (CallSimulationBegin s t) hi hes1
      exact ⟨s1, by simpa [run, step] using h1, h2, h3, h4⟩
    | simulationEnd t =>
      obtain ⟨s1, h1, h2, h3, h4⟩ := ih (CallSimulationEnd s t) hi hes1
      exact ⟨s1, by simpa [run, step] using h1, h2, h3, h4⟩
    | simulationExit t =>
      obtain ⟨s1, h1, h2, h3, h4⟩ := ih (CallSimulationExit s t) hi hes1
      exact ⟨s1, by simpa [run, step] using h1, h2, h3, h4⟩
    | access t ea len ty =>
      obtain ⟨s0, r1, r2, r3, r4, r5⟩ := record_mem_good fuel hf s hi t ea len ty
        (hes t ea len ty (List.mem_cons_self _ _))
      obtain ⟨s1, h1, h2, h3, h4⟩ := ih s0 r2 hes1
      refine ⟨s1, by simp [run, step, r1, h1], h2, by rw [h3, r3], ?_⟩
      rw [h4, r5, r4]
      by_cases ht : t = s.gcThreadid <;> simp [accepted, ht]

/-! ## Regular accesses -/

theorem regular_start (d : MEM_INFO) (h : Regular d) : chunkStart d = d.address / 8 * 8 := by
  obtain ⟨_, h1, h2⟩ := h
  unfold chunkStart
  rw [mask_eq _ (by rw [WORD_eq] at *; omega)]

theorem regular_end (d : MEM_INFO) (h : Regular d) :
    chunkEnd d = (d.address + d.access_size - 1) / 8 * 8 := by
  obtain ⟨_, h1, h2⟩ := h
  unfold chunkEnd
  have e : (d.address + d.access_size + (WORD - 1)) % WORD = d.address + d.access_size - 1 := by
    rw [WORD_eq] at *
    omega
  rw [e, mask_eq _ (by rw [WORD_eq] at *; omega)]

theorem regular_end_mask (d : MEM_INFO) (h : Regular d) :
    chunkEnd d = mask (d.address + d.access_size - 1) := by
  rw [regular_end d h, mask_eq]
  obtain ⟨_, h1, h2⟩ := h
  rw [WORD_eq] at *
  omega

theorem regular_count (d : MEM_INFO) (h : Regular d) :
    chunkCount d = specCount d.address d.access_size := by
  have hs := regular_start d h
  have he := regular_end d h
  obtain ⟨_, h1, h2⟩ := h
  unfold chunkCount specCount
  rw [hs, he]
  split <;> omega

theorem regular_good (d : MEM_INFO) (h : Regular d) : Good d := by
  have he := regular_end d h
  obtain ⟨h0, h1, h2⟩ := h
  refine ⟨h0, ?_⟩
  rw [he]
  rw [WORD_eq] at *
  omega

theorem regular_lines (d : MEM_INFO) (h : Regular d) : recordLines d = specLines d := by
  unfold recordLines specLines chunkAddrs specChunks
  rw [regular_count d h]
  rfl

/-! ## Bounds on the write offset -/

theorem record_mem_bound (fuel : Nat) (s : State) (t ea len ty : Nat)
    (h : s.arrayOffset < LOG_SIZE) :
    (record_mem fuel s t ea len ty).state.arrayOffset ≤ LOG_SIZE ∧
      ((record_mem fuel s t ea len ty).isOk = true →
        (record_mem fuel s t ea len ty).state.arrayOffset < LOG_SIZE) := by
  by_cases ht : t = s.gcThreadid
  · rw [record_mem_accept fuel s t ea len ty ht, store_offset s _ h]
    by_cases hfull : s.arrayOffset + 1 = LOG_SIZE
    · rw [if_pos hfull]
      obtain ⟨l, hl⟩ := writeOutMemLog_frame fuel
        ((s.store (MEM_INFO.mk ea ty len 0)).write Stream.cerr "this happened")
      have ho : (((s.store (MEM_INFO.mk ea ty len 0)).write Stream.cerr
          "this happened").emit l).arrayOffset = LOG_SIZE := by
        rw [← hfull, ← store_offset s (MEM_INFO.mk ea ty len 0) h]; rfl
      generalize writeOutMemLog fuel
        ((s.store (MEM_INFO.mk ea ty len 0)).write Stream.cerr "this happened") = r at hl
      cases r with
      | ok s1 => simp [Outcome.state, Outcome.isOk, LOG_SIZE]
      | abort s1 =>
        simp only [Outcome.state] at hl
        simp [Outcome.state, Outcome.isOk, hl, ho]
      | timeout s1 =>
        simp only [Outcome.state] at hl
        simp [Outcome.state, Outcome.isOk, hl, ho]
    · rw [if_neg hfull]
      simp only [Outcome.state, store_offset s _ h]
      omega
  · rw [record_mem_other fuel s t ea len ty ht]
    simp only [Outcome.state]
    omega

theorem step_bound (fuel : Nat) (s : State) (e : Event) (h : s.arrayOffset < LOG_SIZE) :
    (step fuel s e).state.arrayOffset ≤ LOG_SIZE ∧
      ((step fuel s e).isOk = true → (step fuel s e).state.arrayOffset < LOG_SIZE) := by
  cases e with
  | simulationBegin t =>
    simp only [step, Outcome.state, CallSimulationBegin]; omega
  | simulationEnd t =>
    simp only [step, Outcome.state, CallSimulationEnd]; omega
  | simulationExit t =>
    simp only [step, Outcome.state, CallSimulationExit]; omega
  | access t ea len ty => exact record_mem_bound fuel s t ea len ty h

theorem run_bound (fuel : Nat) :
    ∀ (es : List Event) (s : State), s.arrayOffset < LOG_SIZE →
      (run fuel s es).state.arrayOffset ≤ LOG_SIZE ∧
        ((run fuel s es).isOk = true → (run fuel s es).state.arrayOffset < LOG_SIZE) := by
  intro es
  induction es with
  | nil => intro s h; simp only [run, Outcome.state]; omega
  | cons e es ih =>
    intro s h
    have hb := step_bound fuel s e h
    rw [run]
    generalize step fuel s e = r at hb
    cases r with
    | ok s1 => exact ih s1 (hb.2 rfl)
    | abort s1 => exact ⟨hb.1, fun h => by cases h⟩
    | timeout s1 => exact ⟨hb.1, fun h => by cases h⟩

/-! ## Non-termination at the top of the address space -/

theorem writeRecord_top (d : MEM_INFO) (hop : d.mem_op_type ≤ 2) (he : chunkEnd d = WORD - 8)
    (fuel : Nat) (s : State) :
    ∃ s1, writeRecord fuel d s = .timeout s1 ∧ s1.log.length = s.log.length + fuel := by
  unfold writeRecord
  rw [he]
  have hlt : chunkStart d + 8 ≤ WORD := mask_lt d.address
  exact chunkLoop_top d hop fuel (chunkStart d) s (chunkStart_mod d) (by omega)

theorem single_top (d : MEM_INFO) (hop : d.mem_op_type ≤ 2) (he : chunkEnd d = WORD - 8)
    (hc : d.cycle_num = 0) (fuel : Nat) :
    (runToExit fuel State.init
        [Event.access 0 d.address d.access_size d.mem_op_type]).isTimeout = true ∧
      (runToExit fuel State.init
        [Event.access 0 d.address d.access_size d.mem_op_type]).state.log.length = fuel := by
  have hrun : run fuel State.init [Event.access 0 d.address d.access_size d.mem_op_type] =
      .ok (State.init.store d) := by
    simp only [run, step]
    rw [record_mem_store fuel State.init 0 _ _ _ rfl (by decide)]
    cases d
    simp only at hc
    subst hc
    rfl
  simp only [runToExit, hrun, Fini]
  have hsf : (State.init.store d).somethingFailed = false := rfl
  simp only [hsf, Bool.false_eq_true, if_false, writeOutMemLog]
  cases fuel with
  | zero => exact ⟨rfl, rfl⟩
  | succ f =>
    have h0 : 0 < (State.init.store d).arrayOffset :=
      show 0 < (0 + 1) % WORD by decide
    have hm : (State.init.store d).memValues 0 = d := rfl
    rw [recordLoop, if_pos h0, hm]
    obtain ⟨s1, e, hl⟩ := writeRecord_top d hop he (f + 1) (State.init.store d)
    rw [e]
    refine ⟨rfl, ?_⟩
    simp only [Outcome.state, hl]
    simp [State.store, State.init]

/-! ## Hexadecimal text -/

theorem hexDigitsAux_digits :
    ∀ (fuel n : Nat) (acc : List Char), 0 < n → n < fuel →
      hexDigitsAux fuel n acc = ((Nat.digits 16 n).reverse.map hexDigit) ++ acc := by
  intro fuel
  induction fuel with
  | zero => intro n acc _ h; omega
  | succ f ih =>
    intro n acc hn hf
    rw [hexDigitsAux, Nat.digits_def' (by decide) hn]
    by_cases hq : n / 16 = 0
    · simp [hq]
    · rw [if_neg hq, ih (n / 16) _ (by omega) (by omega)]
      simp

/-- The text of `hexUpper` is the base-16 expansion of the number, most
significant digit first, `0` for zero. -/
theorem hexUpper_digits (n : Nat) :
    hexUpper n = String.mk (if n = 0 then ['0'] else (Nat.digits 16 n).reverse.map hexDigit) := by
  unfold hexUpper
  by_cases h : n = 0
  · subst h; rfl
  · rw [if_neg h, hexDigitsAux_digits (n + 1) n [] (by omega) (by omega)]
    simp

theorem hexDigit_table : ∀ d, d < 16 → "0123456789ABCDEF".data.get? d = some (hexDigit d) := by
  decide

/-! ## Shape of the spec's chunk list -/

theorem specCount_pos (a n : Nat) : 0 < specCount a n := by
  unfold specCount; omega

theorem specChunks_head (a n : Nat) : (specChunks a n).head? = some (mask a) := by
  unfold specChunks
  obtain ⟨c, hc⟩ : ∃ c, specCount a n = c + 1 := ⟨specCount a n - 1, by
    have := specCount_pos a n; omega⟩
  rw [hc, List.range'_succ]
  rfl

theorem specChunks_last (a n : Nat) (h1 : 1 ≤ n) (h2 : a + n - 1 < WORD) :
    (specChunks a n).getLast? = some (mask (a + n - 1)) := by
  unfold specChunks
  obtain ⟨c, hc⟩ : ∃ c, specCount a n = c + 1 := ⟨specCount a n - 1, by
    have := specCount_pos a n; omega⟩
  rw [hc, List.range'_concat, List.getLast?_concat, mask_eq a (by omega), mask_eq _ h2]
  unfold specCount at hc
  congr 1
  omega

theorem specChunks_sorted (a n : Nat) : (specChunks a n).Pairwise (fun x y => x < y) :=
  List.pairwise_lt_range' _ _ 8 (by decide)

theorem specChunks_aligned (a n : Nat) : ∀ c ∈ specChunks a n, c % 8 = 0 := by
  intro c hc
  unfold specChunks at hc
  obtain ⟨i, _, rfl⟩ := List.mem_range'.1 hc
  have := mask_mod a
  omega

/-! ## Accepted records -/

theorem accepted_mem : ∀ (es : List Event) (g : Nat) (d : MEM_INFO), d ∈ accepted g es →
    ∃ t ea len ty, Event.access t ea len ty ∈ es ∧ d = MEM_INFO.mk ea ty len 0 := by
  intro es
  induction es with
  | nil => intro g d h; cases h
  | cons e es ih =>
    intro g d h
    have lift : (∃ t ea len ty, Event.access t ea len ty ∈ es ∧ d = MEM_INFO.mk ea ty len 0) →
        ∃ t ea len ty, Event.access t ea len ty ∈ e :: es ∧ d = MEM_INFO.mk ea ty len 0 :=
      fun ⟨t, ea, len, ty, h1, h2⟩ => ⟨t, ea, len, ty, List.mem_cons_of_mem _ h1, h2⟩
    cases e with
    | simulationBegin t => exact lift (ih t d h)
    | simulationEnd t => exact lift (ih g d h)
    | simulationExit t => exact lift (ih g d h)
    | access t ea len ty =>
      simp only [accepted] at h
      split at h
      · rcases List.mem_cons.1 h with h | h
        · exact ⟨t, ea, len, ty, List.mem_cons_self _ _, h⟩
        · exact lift (ih g d h)
      · exact lift (ih g d h)

theorem flatMap_congr_mem {α β : Type} (l : List α) (f g : α → List β)
    (h : ∀ a ∈ l, f a = g a) : l.flatMap f = l.flatMap g := by
  induction l with
  | nil => rfl
  | cons a l ih =>
    rw [List.flatMap_cons, List.flatMap_cons, h a (List.mem_cons_self _ _),
      ih (fun b hb => h b (List.mem_cons_of_mem _ hb))]

/-- The flush at exit of a run that has not failed writes the buffered lines. -/
theorem Fini_good (fuel : Nat) (hf : 2 ^ 61 ≤ fuel) (s : State) (hi : Inv s)
    (hsf : s.somethingFailed = false) :
    Fini fuel s = .ok (s.emit (s.pending.flatMap recordWrites)) := by
  unfold Fini
  rw [hsf]
  exact writeOutMemLog_good fuel hf s (le_of_lt hi.1) hi.2

/-! ## Lines on `cerr` -/

theorem cerrOf_append (a b : List (Stream × String)) :
    cerrOf (a ++ b) = cerrOf a ++ cerrOf b := by
  simp [cerrOf]

theorem cerrOf_recordWrites (d : MEM_INFO) : cerrOf (recordWrites d) = [] := by
  simp [cerrOf, recordWrites, List.filter_map, Function.comp_def]

theorem cerrOf_flatMap (ds : List MEM_INFO) : cerrOf (ds.flatMap recordWrites) = [] := by
  induction ds with
  | nil => rfl
  | cons d ds ih => simp [List.flatMap_cons, cerrOf_append, cerrOf_recordWrites, ih]

theorem cerrLines_emit (s : State) (l : List (Stream × String)) :
    (s.emit l).cerrLines = s.cerrLines ++ cerrOf l := by
  simp [State.cerrLines, State.emit, cerrOf]

/-! ## Runs of appends below capacity -/

theorem run_append (fuel : Nat) : ∀ (es fs : List Event) (s : State),
    run fuel s (es ++ fs) =
      match run fuel s es with
      | .ok s1 => run fuel s1 fs
      | r => r := by
  intro es
  induction es with
  | nil => intro fs s; rfl
  | cons e es ih =>
    intro fs s
    simp only [List.cons_append, run]
    cases step fuel s e with
    | ok s1 => exact ih fs s1
    | abort s1 => rfl
    | timeout s1 => rfl

theorem run_stores (fuel : Nat) : ∀ (ds : List MEM_INFO) (s : State),
    s.arrayOffset + ds.length < LOG_SIZE → (∀ d ∈ ds, d.cycle_num = 0) →
    ∃ s1, run fuel s (ds.map (accessOf s.gcThreadid)) = .ok s1 ∧
      s1.arrayOffset = s.arrayOffset + ds.length ∧ s1.log = s.log ∧
      s1.pending = s.pending ++ ds ∧ s1.gcThreadid = s.gcThreadid ∧
      s1.somethingFailed = s.somethingFailed := by
  intro ds
  induction ds with
  | nil => intro s _ _; exact ⟨s, rfl, rfl, rfl, by simp, rfl, rfl⟩
  | cons d ds ih =>
    intro s hn hc
    have hlen : (d :: ds).length = ds.length + 1 := rfl
    have hd : MEM_INFO.mk d.address d.mem_op_type d.access_size 0 = d := by
      have := hc d (List.mem_cons_self _ _)
      cases d
      simp only at this
      subst this
      rfl
    have hlt : s.arrayOffset < LOG_SIZE := by omega
    have hst : record_mem fuel s s.gcThreadid d.address d.access_size d.mem_op_type =
        .ok (s.store d) := by
      rw [record_mem_store fuel s _ _ _ _ rfl (by omega), hd]
    have hg : (s.store d).gcThreadid = s.gcThreadid := rfl
    obtain ⟨s1, h1, h2, h3, h4, h5, h6⟩ := ih (s.store d)
      (by rw [store_offset s d hlt]; omega) (fun e he => hc e (List.mem_cons_of_mem _ he))
    rw [hg] at h1
    refine ⟨s1, ?_, ?_, ?_, ?_, ?_, ?_⟩
    · simp only [List.map_cons, run, accessOf, step, hst]
      exact h1
    · rw [h2, store_offset s d hlt]; omega
    · rw [h3]; rfl
    · rw [h4, store_pending s d hlt]; simp
    · rw [h5]; rfl
    · rw [h6]; rfl

/-! ## A record with an unrecognised operation -/

theorem writeRecord_unrecognised (d : MEM_INFO) (hop : 2 < d.mem_op_type)
    (hch : chunkStart d ≤ chunkEnd d) (fuel : Nat) (hf : 0 < fuel) (s : State) :
    writeRecord fuel d s =
      .abort (s.emit
        [(Stream.cerr, "didn't recognize mem op type: " ++ signedDecimal d.mem_op_type)]) := by
  obtain ⟨f, rfl⟩ : ∃ f, fuel = f + 1 := ⟨fuel - 1, by omega⟩
  unfold writeRecord
  rw [chunkLoop, if_pos hch, memOpToString_error _ _ hop]
  rfl

/-- The record loop started at slot `i` with good records in slots `i .. i+m-1`
and an unrecognised operation in slot `i+m`, whatever follows that slot. -/
theorem recordLoop_unrecognised (fuel : Nat) (hf : 2 ^ 61 ≤ fuel) :
    ∀ (m i k : Nat) (s : State), i + m < s.arrayOffset → s.arrayOffset < WORD → m < k →
      (∀ j, i ≤ j → j < i + m → Good (s.memValues j)) →
      2 < (s.memValues (i + m)).mem_op_type →
      chunkStart (s.memValues (i + m)) ≤ chunkEnd (s.memValues (i + m)) →
      recordLoop fuel k i s =
        .abort (s.emit ((List.range' i m).flatMap (fun j => recordWrites (s.memValues j)) ++
          [(Stream.cerr, "didn't recognize mem op type: " ++
            signedDecimal (s.memValues (i + m)).mem_op_type)])) := by
  intro m
  induction m with
  | zero =>
    intro i k s hn _ hk _ hop hch
    obtain ⟨k, rfl⟩ : ∃ k1, k = k1 + 1 := ⟨k - 1, by omega⟩
    have h0 : i < s.arrayOffset := by omega
    rw [Nat.add_zero] at hop hch
    rw [recordLoop, if_pos h0]
    rw [writeRecord_unrecognised _ hop hch fuel (by omega)]
    simp
  | succ m ih =>
    intro i k s hn hw hk hg hop hch
    obtain ⟨k, rfl⟩ : ∃ k1, k = k1 + 1 := ⟨k - 1, by omega⟩
    have h0 : i < s.arrayOffset := by omega
    have hmod : (i + 1) % WORD = i + 1 := Nat.mod_eq_of_lt (by omega)
    have e1 : i + 1 + m = i + (m + 1) := by omega
    rw [recordLoop, if_pos h0, writeRecord_good _ (hg i (le_refl _) (by omega)) fuel hf]
    simp only [hmod]
    rw [ih (i + 1) k _ (by simp [State.emit]; omega) (by simpa [State.emit] using hw) (by omega)
      (fun j h1 h2 => by simpa [State.emit] using hg j (by omega) (by omega))
      (by simpa [State.emit, e1] using hop) (by simpa [State.emit, e1] using hch)]
    simp [emit_emit, List.range'_succ, State.emit, e1]

/-- Any flush that meets an unrecognised operation with at least one chunk,
after good records only, halts there. -/
theorem writeOutMemLog_unrecognised (fuel : Nat) (hf : 2 ^ 61 ≤ fuel) (s : State)
    (hn : s.arrayOffset ≤ LOG_SIZE) (i : Nat) (hi : i < s.arrayOffset)
    (hg : ∀ j, j < i → Good (s.memValues j)) (hop : 2 < (s.memValues i).mem_op_type)
    (hch : chunkStart (s.memValues i) ≤ chunkEnd (s.memValues i)) :
    writeOutMemLog fuel s =
      .abort (s.emit (((List.range i).map s.memValues).flatMap recordWrites ++
        [(Stream.cerr, "didn't recognize mem op type: " ++
          signedDecimal (s.memValues i).mem_op_type)])) := by
  have hL : LOG_SIZE = 1000000 := rfl
  unfold writeOutMemLog
  rw [recordLoop_unrecognised fuel hf i 0 fuel s (by omega) (by rw [WORD_eq]; omega) (by omega)
    (fun j _ hj => hg j (by omega)) (by simpa using hop) (by simpa using hch)]
  simp [List.range_eq_range', List.flatMap_map]

/-- A full buffer whose first record has an unrecognised operation: the flush
inside the append that fills the buffer halts at once. -/
theorem first_unrecognised_halts (fuel : Nat) (hf : 2 ^ 61 ≤ fuel) (d0 : MEM_INFO)
    (a : List MEM_INFO) (x : MEM_INFO) (hlen : a.length + 2 = LOG_SIZE)
    (hc : ∀ d ∈ d0 :: a ++ [x], d.cycle_num = 0) (hop : 2 < d0.mem_op_type)
    (hch : chunkStart d0 ≤ chunkEnd d0) :
    ∃ s, run fuel State.init ((d0 :: a ++ [x]).map (accessOf 0)) = .abort s ∧
      s.arrayOffset = LOG_SIZE := by
  have hL : LOG_SIZE = 1000000 := rfl
  obtain ⟨s1, h1, h2, h3, h4, h5, h6⟩ := run_stores fuel (d0 :: a) State.init
    (by simp only [List.length_cons]; show 0 + _ < _; omega)
    (fun d hd => hc d (by
      rcases List.mem_cons.1 hd with h | h
      · rw [h]; exact List.mem_cons_self _ _
      · exact List.mem_cons_of_mem _ (List.mem_append_left _ h)))
  have hg0 : State.init.gcThreadid = 0 := rfl
  rw [hg0] at h1 h5
  have hoff : s1.arrayOffset = a.length + 1 := by
    rw [h2]; simp only [List.length_cons]; show 0 + _ = _; omega
  have hlt : s1.arrayOffset < LOG_SIZE := by omega
  have hm0 : s1.memValues 0 = d0 := by
    have hp : s1.pending[0]? = some d0 := by
      rw [h4, show State.init.pending = [] from rfl]
      simp
    have hp2 : s1.pending[0]? = some (s1.memValues 0) := by
      unfold State.pending
      rw [hoff]
      simp
    rw [hp2] at hp
    exact Option.some.inj hp
  have hx : MEM_INFO.mk x.address x.mem_op_type x.access_size 0 = x := by
    have := hc x (by simp)
    cases x
    simp only at this
    subst this
    rfl
  have hstep : record_mem fuel s1 0 x.address x.access_size x.mem_op_type =
      .abort (((s1.store x).write Stream.cerr "this happened").emit
        [(Stream.cerr, "didn't recognize mem op type: " ++ signedDecimal d0.mem_op_type)]) := by
    rw [record_mem_accept _ s1 0 _ _ _ h5.symm, hx, store_offset s1 _ hlt,
      if_pos (by omega)]
    unfold writeOutMemLog
    have hx0 : ((s1.store x).write Stream.cerr "this happened").memValues 0 = d0 := by
      have : (0 : Nat) ≠ s1.arrayOffset := by omega
      simp [State.write, State.store, this, hm0]
    have ho : 0 < ((s1.store x).write Stream.cerr "this happened").arrayOffset := by
      show 0 < (s1.store x).arrayOffset
      rw [store_offset s1 _ hlt]
      omega
    obtain ⟨f, rfl⟩ : ∃ f, fuel = f + 1 := ⟨fuel - 1, by omega⟩
    rw [recordLoop, if_pos ho, hx0, writeRecord_unrecognised _ hop hch _ (by omega)]
  refine ⟨((s1.store x).write Stream.cerr "this happened").emit
    [(Stream.cerr, "didn't recognize mem op type: " ++ signedDecimal d0.mem_op_type)], ?_, ?_⟩
  · rw [List.map_append, run_append, h1]
    simp only [List.map_cons, List.map_nil, run, accessOf, step, hstep]
  · show (s1.store x).arrayOffset = LOG_SIZE
    rw [store_offset s1 _ hlt]
    omega

/-! ## What `record_mem` leaves alone -/

theorem record_mem_ctl (fuel : Nat) (s : State) (t ea len ty : Nat) :
    (record_mem fuel s t ea len ty).state.somethingFailed = s.somethingFailed ∧
      (record_mem fuel s t ea len ty).state.withinGC = s.withinGC ∧
      (record_mem fuel s t ea len ty).state.gcThreadid = s.gcThreadid ∧
      (record_mem fuel s t ea len ty).state.memValues =
        if t = s.gcThreadid then (s.store (MEM_INFO.mk ea ty len 0)).memValues
        else s.memValues := by
  by_cases ht : t = s.gcThreadid
  · rw [record_mem_accept fuel s t ea len ty ht, if_pos ht]
    split
    · obtain ⟨l, hl⟩ := writeOutMemLog_frame fuel
        ((s.store (MEM_INFO.mk ea ty len 0)).write Stream.cerr "this happened")
      generalize writeOutMemLog fuel
        ((s.store (MEM_INFO.mk ea ty len 0)).write Stream.cerr "this happened") = r at hl
      cases r <;> simp only [Outcome.state] at hl ⊢ <;> rw [hl] <;>
        exact ⟨rfl, rfl, rfl, rfl⟩
    · exact ⟨rfl, rfl, rfl, rfl⟩
  · rw [record_mem_other fuel s t ea len ty ht, if_neg ht]
    exact ⟨rfl, rfl, rfl, rfl⟩

theorem record_mem_slot (fuel : Nat) (s : State) (t ea len ty : Nat) (ht : t = s.gcThreadid) :
    (record_mem fuel s t ea len ty).state.memValues s.arrayOffset = MEM_INFO.mk ea ty len 0 := by
  rw [(record_mem_ctl fuel s t ea len ty).2.2.2, if_pos ht]
  simp [State.store]

theorem record_mem_unchanged_iff (fuel : Nat) (s : State) (t ea len ty : Nat) :
    record_mem fuel s t ea len ty = .ok s ↔ t ≠ s.gcThreadid := by
  refine ⟨?_, record_mem_other fuel s _ _ _ _⟩
  intro hr ht
  have hoff : (record_mem fuel s t ea len ty).state.arrayOffset = s.arrayOffset := by
    rw [hr]; rfl
  rw [record_mem_accept fuel s _ _ _ _ ht] at hoff
  have hst : (s.store (MEM_INFO.mk ea ty len 0)).arrayOffset = (s.arrayOffset + 1) % WORD := rfl
  have hL : LOG_SIZE = 1000000 := rfl
  split at hoff
  · rename_i hfull
    obtain ⟨l, hl⟩ := writeOutMemLog_frame fuel
      ((s.store (MEM_INFO.mk ea ty len 0)).write Stream.cerr "this happened")
    have ho : (((s.store (MEM_INFO.mk ea ty len 0)).write Stream.cerr
        "this happened").emit l).arrayOffset = LOG_SIZE := hfull
    rw [hst] at hfull
    generalize writeOutMemLog fuel
      ((s.store (MEM_INFO.mk ea ty len 0)).write Stream.cerr "this happened") = r at hl hoff
    cases r with
    | ok s1 =>
      simp only [Outcome.state] at hoff
      rw [WORD_eq] at hfull
      omega
    | abort s1 =>
      simp only [Outcome.state] at hl hoff
      rw [hl, ho] at hoff
      rw [WORD_eq] at hfull
      omega
    | timeout s1 =>
      simp only [Outcome.state] at hl hoff
      rw [hl, ho] at hoff
      rw [WORD_eq] at hfull
      omega
  · simp only [Outcome.state, hst] at hoff
    rw [WORD_eq] at hoff
    omega

theorem step_guard (fuel : Nat) (s : State) (e : Event) :
    (step fuel s e).state.somethingFailed = s.somethingFailed := by
  cases e with
  | simulationBegin t => rfl
  | simulationEnd t => rfl
  | simulationExit t => rfl
  | access t ea len ty => exact (record_mem_ctl fuel s t ea len ty).1

theorem run_guard (fuel : Nat) : ∀ (es : List Event) (s : State),
    (run fuel s es).state.somethingFailed = s.somethingFailed := by
  intro es
  induction es with
  | nil => intro s; rfl
  | cons e es ih =>
    intro s
    have hg := step_guard fuel s e
    rw [run]
    generalize step fuel s e = r at hg
    cases r with
    | ok s1 => rw [ih s1]; exact hg
    | abort s1 => exact hg
    | timeout s1 => exact hg

theorem Fini_guard (fuel : Nat) (s : State) :
    (Fini fuel s).state.somethingFailed = s.somethingFailed := by
  unfold Fini
  obtain ⟨l, hl⟩ := writeOutMemLog_frame fuel
    (if s.somethingFailed = true then
      (s.write Stream.out "something failed so I'm not printing out any results").write
        Stream.cerr "something failed so I'm not printing out any results"
    else s)
  rw [hl]
  split <;> rfl

theorem runToExit_guard (fuel : Nat) (es : List Event) (s : State) :
    (runToExit fuel s es).state.somethingFailed = s.somethingFailed := by
  have hg := run_guard fuel es s
  unfold runToExit
  generalize run fuel s es = r at hg
  cases r with
  | ok s1 => rw [Fini_guard]; exact hg
  | abort s1 => exact hg
  | timeout s1 => exact hg

/-! ## The cycle field -/

theorem step_cycle (fuel : Nat) (s : State) (e : Event)
    (h : ∀ i, (s.memValues i).cycle_num = 0) :
    ∀ i, ((step fuel s e).state.memValues i).cycle_num = 0 := by
  cases e with
  | simulationBegin t => exact h
  | simulationEnd t => exact h
  | simulationExit t => exact h
  | access t ea len ty =>
    intro i
    simp only [step]
    rw [(record_mem_ctl fuel s t ea len ty).2.2.2]
    split
    · simp only [State.store]
      split
      · rfl
      · exact h i
    · exact h i

theorem run_cycle (fuel : Nat) : ∀ (es : List Event) (s : State),
    (∀ i, (s.memValues i).cycle_num = 0) →
    ∀ i, ((run fuel s es).state.memValues i).cycle_num = 0 := by
  intro es
  induction es with
  | nil => intro s h; exact h
  | cons e es ih =>
    intro s h
    have hc := step_cycle fuel s e h
    rw [run]
    generalize step fuel s e = r at hc
    cases r with
    | ok s1 => exact ih s1 hc
    | abort s1 => exact hc
    | timeout s1 => exact hc

/-! ## Every write of the chunk loop -/

theorem chunkLoop_writes (d : MEM_INFO) (end_ : Nat) (hop : d.mem_op_type ≤ 2) :
    ∀ (fuel addr : Nat) (s : State), ∃ k, k ≤ fuel ∧
      (chunkLoop d end_ fuel addr s).state =
        s.emit ((List.iterate (fun a => (a + ACCESS_SIZE) % WORD) addr k).map
          (fun c => (Stream.out, lineText d c))) := by
  intro fuel
  induction fuel with
  | zero => intro addr s; exact ⟨0, le_refl _, by simp [chunkLoop, Outcome.state, emit_nil]⟩
  | succ f ih =>
    intro addr s
    rw [chunkLoop]
    split
    · rw [memOpToString_ok _ _ hop]
      obtain ⟨k, hk, hl⟩ := ih ((addr + ACCESS_SIZE) % WORD)
        (s.write Stream.out (formatLine addr (opText d.mem_op_type) d.cycle_num))
      refine ⟨k + 1, by omega, ?_⟩
      simp only [] at hl ⊢
      rw [hl, write_eq_emit, emit_emit]
      simp [List.iterate, lineText, formatLine]
    · exact ⟨0, by omega, by simp [Outcome.state, emit_nil]⟩

/-! ## The claims -/

/-- Claim C1, counterexample. In the initial state (`withinGC == false`, no
`CallSimulationBegin` yet) an access of thread 0 delivered to `record_mem` is
stored, and the flush at exit writes its line. -/
theorem untraced_access_of_thread_zero_is_logged :
    State.init.withinGC = false ∧
      (record_mem 10 State.init 0 0x1000 4 0).state.arrayOffset = 1 ∧
      (record_mem 10 State.init 0 0x1000 4 0).state.memValues 0 = MEM_INFO.mk 0x1000 0 4 0 ∧
      (runToExit 10 State.init [Event.access 0 0x1000 4 0]).isOk = true ∧
      (runToExit 10 State.init [Event.access 0 0x1000 4 0]).state.outLines =
        ["0x1000 READ   0"] := by
  decide

/-- Claim C1, amended. While `withinGC == false` the gate is the one in `Trace`,
which inserts no call to `record_mem`; `record_mem` itself does not look at
`withinGC`: an access delivered to it leaves the state as it is exactly when
its thread differs from `gcThreadid`. An access of thread `gcThreadid` with a
recognised operation and last chunk below the highest aligned address is
written into slot `arrayOffset`, the offset advances when the buffer is not
filled, and at exit its lines stand on `*out` after those of the records
buffered before it, with `withinGC` still false. -/
theorem untraced_access_gate (fuel : Nat) (hf : 2 ^ 61 ≤ fuel) (s : State) (hi : Inv s)
    (hsf : s.somethingFailed = false) (h : s.withinGC = false)
    (threadid memea length mem_type : Nat) (ht : threadid = s.gcThreadid)
    (hd : Good (MEM_INFO.mk memea mem_type length 0)) :
    (∀ trace, Trace s trace = []) ∧
      (∀ t, record_mem fuel s t memea length mem_type = .ok s ↔ t ≠ s.gcThreadid) ∧
      (record_mem fuel s threadid memea length mem_type).state.memValues s.arrayOffset =
        MEM_INFO.mk memea mem_type length 0 ∧
      (s.arrayOffset + 1 < LOG_SIZE →
        ∃ s0, record_mem fuel s threadid memea length mem_type = .ok s0 ∧
          s0.arrayOffset = s.arrayOffset + 1 ∧ s0.log = s.log ∧ s0.withinGC = false) ∧
      ∃ s1, runToExit fuel s [Event.access threadid memea length mem_type] = .ok s1 ∧
        s1.withinGC = false ∧
        s1.outLines = s.outLines ++ s.pending.flatMap recordLines ++
          recordLines (MEM_INFO.mk memea mem_type length 0) := by
  refine ⟨fun trace => by simp [Trace, h], fun t => record_mem_unchanged_iff fuel s t _ _ _,
    record_mem_slot fuel s _ _ _ _ ht, ?_, ?_⟩
  · intro hn
    exact ⟨_, record_mem_store fuel s _ _ _ _ ht hn, store_offset s _ hi.1, rfl, h⟩
  · obtain ⟨s0, r1, r2, r3, _, r5⟩ := record_mem_good fuel hf s hi threadid memea length
      mem_type hd
    have hw : s0.withinGC = false := by
      have := (record_mem_ctl fuel s threadid memea length mem_type).2.1
      rw [r1] at this
      rw [← h]
      exact this
    refine ⟨s0.emit (s0.pending.flatMap recordWrites), ?_, hw, ?_⟩
    · simp only [runToExit, run, step, r1]
      exact Fini_good fuel hf s0 r2 (by rw [r3, hsf])
    · rw [outLines_emit, outOf_flatMap, r5, if_pos ht]

/-- Claim C1, amended, at an instance: in the initial state, before any
`CallSimulationBegin`, a read of 4 bytes at `0x1000` by thread 0 is stored and
printed at exit. -/
theorem untraced_access_gate_witness :
    (2 ^ 61 ≤ 2 ^ 61 ∧ Inv State.init ∧ State.init.somethingFailed = false ∧
      State.init.withinGC = false ∧ 0 = State.init.gcThreadid ∧
      Good (MEM_INFO.mk 0x1000 0 4 0)) ∧
    State.init.arrayOffset + 1 < LOG_SIZE ∧
    State.init.outLines ++ State.init.pending.flatMap recordLines ++
      recordLines (MEM_INFO.mk 0x1000 0 4 0) = ["0x1000 READ   0"] ∧
    ((∀ trace, Trace State.init trace = []) ∧
      (∀ t, record_mem (2 ^ 61) State.init t 0x1000 4 0 = .ok State.init ↔
        t ≠ State.init.gcThreadid) ∧
      (record_mem (2 ^ 61) State.init 0 0x1000 4 0).state.memValues State.init.arrayOffset =
        MEM_INFO.mk 0x1000 0 4 0 ∧
      (State.init.arrayOffset + 1 < LOG_SIZE →
        ∃ s0, record_mem (2 ^ 61) State.init 0 0x1000 4 0 = .ok s0 ∧
          s0.arrayOffset = State.init.arrayOffset + 1 ∧ s0.log = State.init.log ∧
          s0.withinGC = false) ∧
      ∃ s1, runToExit (2 ^ 61) State.init [Event.access 0 0x1000 4 0] = .ok s1 ∧
        s1.withinGC = false ∧
        s1.outLines = State.init.outLines ++ State.init.pending.flatMap recordLines ++
          recordLines (MEM_INFO.mk 0x1000 0 4 0)) :=
  have hi : Inv State.init := ⟨by decide, fun d hd => by cases hd⟩
  ⟨⟨le_refl _, hi, rfl, rfl, rfl, by decide⟩, by decide, by decide,
    untraced_access_gate (2 ^ 61) (le_refl _) State.init hi rfl rfl 0 0x1000 4 0 rfl
      (by decide)⟩

/-- Claim C2. An access whose thread differs from `gcThreadid` leaves the whole
state as it is, whatever `withinGC` is: buffer, offset and streams are
unchanged, and a run that contains the access ends exactly like the run
without it. -/
theorem other_thread_access_ignored (fuel : Nat) (s : State)
    (threadid memea length mem_type : Nat) (h : threadid ≠ s.gcThreadid) :
    record_mem fuel s threadid memea length mem_type = .ok s ∧
      ∀ es, runToExit fuel s (Event.access threadid memea length mem_type :: es) =
        runToExit fuel s es := by
  refine ⟨record_mem_other fuel s _ _ _ _ h, fun es => ?_⟩
  simp [runToExit, run, step, record_mem_other fuel s _ _ _ _ h]

/-- Claim C2 at an instance: while thread 5 is traced, an access of thread 6 is
ignored. -/
theorem other_thread_access_ignored_witness :
    6 ≠ (CallSimulationBegin State.init 5).gcThreadid ∧
      (record_mem 4 (CallSimulationBegin State.init 5) 6 4096 4 0 =
          .ok (CallSimulationBegin State.init 5) ∧
        ∀ es, runToExit 4 (CallSimulationBegin State.init 5) (Event.access 6 4096 4 0 :: es) =
          runToExit 4 (CallSimulationBegin State.init 5) es) :=
  ⟨by decide, other_thread_access_ignored 4 (CallSimulationBegin State.init 5) 6 4096 4 0
    (by decide)⟩

/-- Claim C3, counterexample. An access of 8 bytes at `0xFFFFFFFFFFFFFFFC` runs
past the top of the address space: the formula over the naturals counts 2
chunks, while the last chunk the code computes modulo `2 ^ 64` is 0, below the
first one, so the flush at exit returns having written no line. -/
theorem wrapping_access_line_count :
    specCount 0xFFFFFFFFFFFFFFFC 8 = 2 ∧
      chunkEnd (MEM_INFO.mk 0xFFFFFFFFFFFFFFFC 0 8 0) = 0 ∧
      (runToExit 2 State.init [Event.access 0 0xFFFFFFFFFFFFFFFC 8 0]).isOk = true ∧
      (runToExit 2 State.init [Event.access 0 0xFFFFFFFFFFFFFFFC 8 0]).state.outLines.length
        = 0 := by
  decide

/-- Claim C3, amended. For a record with a recognised operation, at least one
byte and `address + size - 1 < 2 ^ 64 - 8`, the chunk loop returns, within any
budget above the count, after writing exactly
`(address + size - 1) / 8 - address / 8 + 1` lines to `*out`. -/
theorem regular_access_line_count (d : MEM_INFO) (h : Regular d) (fuel : Nat)
    (hf : (d.address + d.access_size - 1) / 8 - d.address / 8 + 1 < fuel) (s : State) :
    ∃ ls : List String,
      writeRecord fuel d s = .ok (s.emit (ls.map (fun l => (Stream.out, l)))) ∧
      ls.length = (d.address + d.access_size - 1) / 8 - d.address / 8 + 1 := by
  refine ⟨recordLines d, ?_, ?_⟩
  · rw [writeRecord_lines d (regular_good d h) fuel (by rw [regular_count d h]; exact hf)]
    rfl
  · simp [recordLines, chunkAddrs, regular_count d h, specCount]

/-- Claim C3, amended, at an instance: 8 bytes at `0x1004` give 2 lines. -/
theorem regular_access_line_count_witness :
    Regular (MEM_INFO.mk 0x1004 0 8 0) ∧
      ∃ ls : List String,
        writeRecord 3 (MEM_INFO.mk 0x1004 0 8 0) State.init =
          .ok (State.init.emit (ls.map (fun l => (Stream.out, l)))) ∧
        ls.length = (0x1004 + 8 - 1) / 8 - 0x1004 / 8 + 1 :=
  ⟨by decide, regular_access_line_count (MEM_INFO.mk 0x1004 0 8 0) (by decide) 3 (by decide)
    State.init⟩

/-- Claim C4, counterexample. For 8 bytes at `0xFFFFFFFFFFFFFFFC` the aligned
address is `0xFFFFFFFFFFFFFFF8`, yet the chunk loop returns at once and no
line, hence no chunk address, is written for the record. -/
theorem wrapping_access_has_no_chunk :
    mask 0xFFFFFFFFFFFFFFFC = 0xFFFFFFFFFFFFFFF8 ∧
      (writeRecord 1 (MEM_INFO.mk 0xFFFFFFFFFFFFFFFC 0 8 0) State.init).isOk = true ∧
      (writeRecord 1 (MEM_INFO.mk 0xFFFFFFFFFFFFFFFC 0 8 0) State.init).state.outLines = [] := by
  decide

/-- Claim C4, amended. For a record with a recognised operation, at least one
byte and `address + size - 1 < 2 ^ 64 - 8`, the chunk loop writes one line per
element of the list that starts at `mask address`, ends at
`mask (address + size - 1)` and advances by 8: the list is strictly
increasing, so no chunk appears twice, and all its elements are multiples
of 8. -/
theorem regular_access_chunks (d : MEM_INFO) (h : Regular d) (fuel : Nat)
    (hf : specCount d.address d.access_size < fuel) (s : State) :
    writeRecord fuel d s =
        .ok (s.emit ((specChunks d.address d.access_size).map
          (fun c => (Stream.out, formatLine c (opText d.mem_op_type) d.cycle_num)))) ∧
      (specChunks d.address d.access_size).head? = some (mask d.address) ∧
      (specChunks d.address d.access_size).getLast? =
        some (mask (d.address + d.access_size - 1)) ∧
      (specChunks d.address d.access_size).Pairwise (fun x y => x < y) ∧
      ∀ c ∈ specChunks d.address d.access_size, c % 8 = 0 := by
  refine ⟨?_, specChunks_head _ _, specChunks_last _ _ h.2.1 ?_, specChunks_sorted _ _,
    specChunks_aligned _ _⟩
  · rw [writeRecord_lines d (regular_good d h) fuel (by rw [regular_count d h]; exact hf)]
    simp [recordWrites, regular_lines d h, specLines, List.map_map, Function.comp_def]
  · have := h.2.2
    omega

/-- Claim C4, amended, at the instance of Scenario B: 8 bytes read at `0x1004`
give the chunks `0x1000` and `0x1008`, both as `READ`. -/
theorem regular_access_chunks_witness :
    (Regular (MEM_INFO.mk 0x1004 0 8 0) ∧ specCount 0x1004 8 < 3) ∧
      specChunks 0x1004 8 = [0x1000, 0x1008] ∧
      (writeRecord 3 (MEM_INFO.mk 0x1004 0 8 0) State.init).state.outLines =
        ["0x1000 READ   0", "0x1008 READ   0"] ∧
      (writeRecord 3 (MEM_INFO.mk 0x1004 0 8 0) State.init =
          .ok (State.init.emit ((specChunks 0x1004 8).map
            (fun c => (Stream.out, formatLine c (opText 0) 0)))) ∧
        (specChunks 0x1004 8).head? = some (mask 0x1004) ∧
        (specChunks 0x1004 8).getLast? = some (mask (0x1004 + 8 - 1)) ∧
        (specChunks 0x1004 8).Pairwise (fun x y => x < y) ∧
        ∀ c ∈ specChunks 0x1004 8, c % 8 = 0) :=
  ⟨by decide, by decide, by decide,
    regular_access_chunks (MEM_INFO.mk 0x1004 0 8 0) (by decide) 3 (by decide) State.init⟩

/-- Claim C5, counterexample. Scenario A ends with exactly one line on `*out`,
and that line is `0x1000 READ   0`: the padded operation is followed directly
by the cycle, so three spaces, not four, stand between `READ` and `0`. -/
theorem scenario_A_line_has_no_separator :
    (runToExit 4 State.init
        [Event.simulationBegin 5, Event.access 5 0x1000 4 0, Event.simulationEnd 5]).isOk
        = true ∧
      (runToExit 4 State.init
        [Event.simulationBegin 5, Event.access 5 0x1000 4 0, Event.simulationEnd 5]).state.outLines
        = ["0x1000 READ   0"] ∧
      (runToExit 4 State.init
        [Event.simulationBegin 5, Event.access 5 0x1000 4 0, Event.simulationEnd 5]).state.outLines
        ≠ ["0x1000 READ    0"] := by
  decide

/-- Claim C5, amended. For every record with a recognised operation, also one
whose chunk loop never leaves, every iteration at a chunk address `c` writes to
`*out` the line made of `0x`, the uppercase base-16 expansion of `c` without
leading zeros, one space, the operation padded to 7 characters (`READ   `,
`WRITE  ` or `IFETCH `) and, directly after it, the cycle in decimal; nothing
else is written by the loop. The record that `record_mem` puts into its slot
has cycle 0, every slot has cycle 0 all along every run from the initial state,
and cycle 0 is printed as `0`. Scenario A ends with the single line
`0x1000 READ   0`. -/
theorem line_format (d : MEM_INFO) (hop : d.mem_op_type ≤ 2) (fuel : Nat) (s : State) :
    (∀ c, lineText d c =
        "0x" ++ hexUpper c ++ " " ++ opText d.mem_op_type ++ decimal d.cycle_num) ∧
      (∀ c, c ≤ chunkEnd d →
        chunkLoop d (chunkEnd d) (fuel + 1) c s =
          chunkLoop d (chunkEnd d) fuel ((c + ACCESS_SIZE) % WORD)
            (s.write Stream.out (lineText d c))) ∧
      (∃ k, k ≤ fuel ∧ (writeRecord fuel d s).state =
        s.emit ((List.iterate (fun a => (a + ACCESS_SIZE) % WORD) (chunkStart d) k).map
          (fun c => (Stream.out, lineText d c)))) ∧
      (Good d → chunkCount d < fuel →
        writeRecord fuel d s =
          .ok (s.emit ((chunkAddrs d).map (fun c => (Stream.out, lineText d c))))) ∧
      (∀ c, hexUpper c =
        String.mk (if c = 0 then ['0'] else (Nat.digits 16 c).reverse.map hexDigit)) ∧
      (∀ k, k < 16 → "0123456789ABCDEF".data.get? k = some (hexDigit k)) ∧
      (opText d.mem_op_type = "READ   " ∨ opText d.mem_op_type = "WRITE  " ∨
        opText d.mem_op_type = "IFETCH ") ∧
      (opText d.mem_op_type).length = 7 ∧
      (∀ (f : Nat) (s0 : State) (t ea len ty : Nat), t = s0.gcThreadid →
        (record_mem f s0 t ea len ty).state.memValues s0.arrayOffset =
          MEM_INFO.mk ea ty len 0) ∧
      (∀ (f : Nat) (es : List Event) (i : Nat),
        ((run f State.init es).state.memValues i).cycle_num = 0) ∧
      decimal 0 = "0" ∧
      (runToExit 4 State.init
        [Event.simulationBegin 5, Event.access 5 0x1000 4 0, Event.simulationEnd 5]).state.outLines
        = ["0x1000 READ   0"] := by
  have hcases : d.mem_op_type = 0 ∨ d.mem_op_type = 1 ∨ d.mem_op_type = 2 := by omega
  refine ⟨fun c => rfl, ?_, chunkLoop_writes d (chunkEnd d) hop fuel (chunkStart d) s, ?_,
    hexUpper_digits, hexDigit_table, ?_, ?_,
    fun f s0 t ea len ty ht => record_mem_slot f s0 t ea len ty ht,
    fun f es i => run_cycle f es State.init (fun _ => rfl) i, by decide, by decide⟩
  · intro c hc
    rw [chunkLoop, if_pos hc, memOpToString_ok _ _ hop]
    rfl
  · intro hg hf
    rw [writeRecord_lines d hg fuel hf]
    simp [recordWrites, recordLines, List.map_map, Function.comp_def, formatLine, lineText]
  · rcases hcases with e | e | e <;> rw [e] <;> decide
  · rcases hcases with e | e | e <;> rw [e] <;> decide

/-- Claim C5, amended, at the record of Scenario A. -/
theorem line_format_witness :
    (MEM_INFO.mk 0x1000 0 4 0).mem_op_type ≤ 2 ∧
      (Good (MEM_INFO.mk 0x1000 0 4 0) ∧ chunkCount (MEM_INFO.mk 0x1000 0 4 0) < 2) ∧
      (0x1000 ≤ chunkEnd (MEM_INFO.mk 0x1000 0 4 0) ∧
        lineText (MEM_INFO.mk 0x1000 0 4 0) 0x1000 = "0x1000 READ   0") ∧
      (writeRecord 2 (MEM_INFO.mk 0x1000 0 4 0) State.init).state.outLines =
        ["0x1000 READ   0"] ∧
      ((∀ c, lineText (MEM_INFO.mk 0x1000 0 4 0) c =
          "0x" ++ hexUpper c ++ " " ++ opText 0 ++ decimal 0) ∧
        (∀ c, c ≤ chunkEnd (MEM_INFO.mk 0x1000 0 4 0) →
          chunkLoop (MEM_INFO.mk 0x1000 0 4 0) (chunkEnd (MEM_INFO.mk 0x1000 0 4 0)) (2 + 1) c
              State.init =
            chunkLoop (MEM_INFO.mk 0x1000 0 4 0) (chunkEnd (MEM_INFO.mk 0x1000 0 4 0)) 2
              ((c + ACCESS_SIZE) % WORD)
              (State.init.write Stream.out (lineText (MEM_INFO.mk 0x1000 0 4 0) c))) ∧
        (∃ k, k ≤ 2 ∧ (writeRecord 2 (MEM_INFO.mk 0x1000 0 4 0) State.init).state =
          State.init.emit ((List.iterate (fun a => (a + ACCESS_SIZE) % WORD)
            (chunkStart (MEM_INFO.mk 0x1000 0 4 0)) k).map
            (fun c => (Stream.out, lineText (MEM_INFO.mk 0x1000 0 4 0) c)))) ∧
        (Good (MEM_INFO.mk 0x1000 0 4 0) → chunkCount (MEM_INFO.mk 0x1000 0 4 0) < 2 →
          writeRecord 2 (MEM_INFO.mk 0x1000 0 4 0) State.init =
            .ok (State.init.emit ((chunkAddrs (MEM_INFO.mk 0x1000 0 4 0)).map
              (fun c => (Stream.out, lineText (MEM_INFO.mk 0x1000 0 4 0) c))))) ∧
        (∀ c, hexUpper c =
          String.mk (if c = 0 then ['0'] else (Nat.digits 16 c).reverse.map hexDigit)) ∧
        (∀ k, k < 16 → "0123456789ABCDEF".data.get? k = some (hexDigit k)) ∧
        (opText 0 = "READ   " ∨ opText 0 = "WRITE  " ∨ opText 0 = "IFETCH ") ∧
        (opText 0).length = 7 ∧
        (∀ (f : Nat) (s0 : State) (t ea len ty : Nat), t = s0.gcThreadid →
          (record_mem f s0 t ea len ty).state.memValues s0.arrayOffset =
            MEM_INFO.mk ea ty len 0) ∧
        (∀ (f : Nat) (es : List Event) (i : Nat),
          ((run f State.init es).state.memValues i).cycle_num = 0) ∧
        decimal 0 = "0" ∧
        (runToExit 4 State.init
          [Event.simulationBegin 5, Event.access 5 0x1000 4 0,
            Event.simulationEnd 5]).state.outLines = ["0x1000 READ   0"]) :=
  ⟨by decide, by decide, by decide, by decide,
    line_format (MEM_INFO.mk 0x1000 0 4 0) (by decide) 2 State.init⟩

/-- Claim C6, counterexample. An accepted access of 8 bytes at
`0xFFFFFFFFFFFFFFFC` has two lines by the specification, and the whole run,
flush at exit included, writes nothing: the record is lost. An accepted access
of 1 byte at `0xFFFFFFFFFFFFFFF8` has one line by the specification, and the
flush at exit has already written three when a budget of three iterations is
used up. -/
theorem wrapping_access_is_lost :
    (accepted 0 [Event.access 0 0xFFFFFFFFFFFFFFFC 8 0] =
        [MEM_INFO.mk 0xFFFFFFFFFFFFFFFC 0 8 0] ∧
      (specLines (MEM_INFO.mk 0xFFFFFFFFFFFFFFFC 0 8 0)).length = 2 ∧
      (runToExit 2 State.init [Event.access 0 0xFFFFFFFFFFFFFFFC 8 0]).isOk = true ∧
      (runToExit 2 State.init [Event.access 0 0xFFFFFFFFFFFFFFFC 8 0]).state.outLines = []) ∧
    (specLines (MEM_INFO.mk 0xFFFFFFFFFFFFFFF8 0 1 0) = ["0xFFFFFFFFFFFFFFF8 READ   0"] ∧
      (runToExit 3 State.init [Event.access 0 0xFFFFFFFFFFFFFFF8 1 0]).isTimeout = true ∧
      (runToExit 3 State.init [Event.access 0 0xFFFFFFFFFFFFFFF8 1 0]).state.outLines =
        ["0xFFFFFFFFFFFFFFF8 READ   0", "0x0 READ   0", "0x8 READ   0"]) := by
  decide

/-- Claim C6, amended. For every finite sequence of events from the initial
state whose accesses have a recognised operation, at least one byte and
`address + size - 1 < 2 ^ 64 - 8`, the run and the flush at exit return, and
the lines on `*out`, automatic flushes included, are the concatenation in
arrival order of the lines of the accepted records. -/
theorem output_is_concatenation (fuel : Nat) (hf : 2 ^ 61 ≤ fuel) (es : List Event)
    (hes : ∀ t ea len ty, Event.access t ea len ty ∈ es → Regular (MEM_INFO.mk ea ty len 0)) :
    ∃ s, runToExit fuel State.init es = .ok s ∧
      s.outLines = (accepted 0 es).flatMap specLines := by
  have hinit : Inv State.init := ⟨by decide, fun d hd => by cases hd⟩
  obtain ⟨s1, h1, h2, h3, h4⟩ := run_good fuel hf es State.init hinit
    (fun t ea len ty h => regular_good _ (hes t ea len ty h))
  refine ⟨_, by rw [runToExit, h1]; exact Fini_good fuel hf s1 h2 h3, ?_⟩
  rw [outLines_emit, outOf_flatMap, h4]
  have e : State.init.outLines ++ State.init.pending.flatMap recordLines = [] := rfl
  rw [e, List.nil_append]
  apply flatMap_congr_mem
  intro d hd
  obtain ⟨t, ea, len, ty, hm, rfl⟩ := accepted_mem es _ d hd
  exact regular_lines _ (hes t ea len ty hm)

/-- Claim C6, amended, at an instance: two accesses of thread 0 around one of
thread 3. -/
theorem output_is_concatenation_witness :
    (2 ^ 61 ≤ 2 ^ 61 ∧
      ∀ t ea len ty, Event.access t ea len ty ∈
          [Event.access 0 0x1000 4 0, Event.access 3 0x2000 4 1, Event.access 0 0x1004 8 1] →
        Regular (MEM_INFO.mk ea ty len 0)) ∧
      ∃ s, runToExit (2 ^ 61) State.init
          [Event.access 0 0x1000 4 0, Event.access 3 0x2000 4 1, Event.access 0 0x1004 8 1]
            = .ok s ∧
        s.outLines = (accepted 0
          [Event.access 0 0x1000 4 0, Event.access 3 0x2000 4 1,
            Event.access 0 0x1004 8 1]).flatMap specLines :=
  have hes : ∀ t ea len ty, Event.access t ea len ty ∈
      [Event.access 0 0x1000 4 0, Event.access 3 0x2000 4 1, Event.access 0 0x1004 8 1] →
      Regular (MEM_INFO.mk ea ty len 0) := by
    intro t ea len ty h
    simp only [List.mem_cons, Event.access.injEq, List.mem_singleton, List.not_mem_nil,
      or_false] at h
    rcases h with ⟨_, rfl, rfl, rfl⟩ | ⟨_, rfl, rfl, rfl⟩ | ⟨_, rfl, rfl, rfl⟩ <;> decide
  ⟨⟨le_refl _, hes⟩, output_is_concatenation (2 ^ 61) (le_refl _) _ hes⟩

/-- Claim C7, counterexample. When the first of the `LOG_SIZE` records carries
an operation that is not one of the three enumerators, the flush inside the
`LOG_SIZE`-th append halts the process: that append does not return, the offset
stays at `LOG_SIZE`, and no further append takes place. -/
theorem full_buffer_flush_can_halt :
    (run (2 ^ 61) State.init
        ((MEM_INFO.mk 0x1000 7 4 0 :: List.replicate 999998 (MEM_INFO.mk 0x1000 0 4 0) ++
          [MEM_INFO.mk 0x1000 0 4 0]).map (accessOf 0))).isAbort = true ∧
      (run (2 ^ 61) State.init
        ((MEM_INFO.mk 0x1000 7 4 0 :: List.replicate 999998 (MEM_INFO.mk 0x1000 0 4 0) ++
          [MEM_INFO.mk 0x1000 0 4 0]).map (accessOf 0))).state.arrayOffset = LOG_SIZE := by
  obtain ⟨s, h1, h2⟩ := first_unrecognised_halts (2 ^ 61) (le_refl _) (MEM_INFO.mk 0x1000 7 4 0)
    (List.replicate 999998 (MEM_INFO.mk 0x1000 0 4 0)) (MEM_INFO.mk 0x1000 0 4 0)
    (by rw [List.length_replicate]; rfl)
    (by
      intro d hd
      rcases List.mem_cons.1 hd with h | h
      · rw [h]
      · rcases List.mem_append.1 h with h | h
        · rw [List.eq_of_mem_replicate h]
        · rw [List.mem_singleton.1 h])
    (by decide) (by decide)
  rw [h1]
  exact ⟨rfl, h2⟩

/-- Claim C7, amended. From an empty buffer, append `LOG_SIZE + 1` accepted
records whose operations are recognised and whose last chunks are below the
highest aligned address: `a` holds the first `LOG_SIZE - 1`, then come `x` and
`y`. No prefix of `a` writes anything; the append of `x` returns with offset 0
after one note on `cerr` followed by the lines of all `LOG_SIZE` records; the
append of `y` returns with offset 1, `y` in slot 0 and nothing more written,
so `cerr` has received the note exactly once. -/
theorem capacity_plus_one (fuel : Nat) (hf : 2 ^ 61 ≤ fuel) (s0 : State)
    (h0 : s0.arrayOffset = 0) (a : List MEM_INFO) (x y : MEM_INFO)
    (ha : a.length + 1 = LOG_SIZE) (hg : ∀ d ∈ a ++ [x, y], Good d ∧ d.cycle_num = 0) :
    (∀ k, k ≤ a.length → ∃ s, run fuel s0 ((a.take k).map (accessOf s0.gcThreadid)) = .ok s ∧
      s.arrayOffset = k ∧ s.log = s0.log) ∧
    ∃ s, run fuel s0 ((a ++ [x]).map (accessOf s0.gcThreadid)) = .ok s ∧
      s.arrayOffset = 0 ∧
      s.log = s0.log ++ (Stream.cerr, "this happened") :: (a ++ [x]).flatMap recordWrites ∧
      ∃ s1, run fuel s0 ((a ++ [x, y]).map (accessOf s0.gcThreadid)) = .ok s1 ∧
        s1.arrayOffset = 1 ∧ s1.memValues 0 = y ∧ s1.log = s.log ∧
        s1.cerrLines = s0.cerrLines ++ ["this happened"] := by
  have hL : LOG_SIZE = 1000000 := rfl
  have hga : ∀ d ∈ a, Good d ∧ d.cycle_num = 0 :=
    fun d hd => hg d (List.mem_append_left _ hd)
  have hgx : Good x ∧ x.cycle_num = 0 := hg x (by simp)
  have hgy : Good y ∧ y.cycle_num = 0 := hg y (by simp)
  have hx : MEM_INFO.mk x.address x.mem_op_type x.access_size 0 = x := by
    have := hgx.2
    cases x
    simp only at this
    subst this
    rfl
  have hy : MEM_INFO.mk y.address y.mem_op_type y.access_size 0 = y := by
    have := hgy.2
    cases y
    simp only at this
    subst this
    rfl
  refine ⟨?_, ?_⟩
  · intro k hk
    obtain ⟨s, h1, h2, h3, _⟩ := run_stores fuel (a.take k) s0
      (by rw [h0, List.length_take]; omega)
      (fun d hd => (hga d (List.mem_of_mem_take hd)).2)
    exact ⟨s, h1, by rw [h2, h0, List.length_take]; omega, h3⟩
  · obtain ⟨s1, h1, h2, h3, h4, h5, h6⟩ := run_stores fuel a s0 (by rw [h0]; omega)
      (fun d hd => (hga d hd).2)
    have hp0 : s0.pending = [] := by simp [State.pending, h0]
    rw [hp0, List.nil_append] at h4
    have hfl := record_mem_flush fuel hf s1 s1.gcThreadid x.address x.access_size x.mem_op_type
      rfl (by rw [h2, h0]; omega) (by rw [h4]; exact fun d hd => (hga d hd).1)
      (by rw [hx]; exact hgx.1)
    rw [hx, h4] at hfl
    have hrun1 : run fuel s0 ((a ++ [x]).map (accessOf s0.gcThreadid)) =
        .ok ((s1.store x).emit ((Stream.cerr, "this happened") ::
          (a ++ [x]).flatMap recordWrites)).restart := by
      rw [List.map_append, run_append, h1]
      simp only [List.map_cons, List.map_nil, run, accessOf, step]
      rw [← h5, hfl]
    refine ⟨_, hrun1, rfl, ?_, ?_⟩
    · show (s1.store x).log ++ _ = _
      rw [show (s1.store x).log = s1.log from rfl, h3]
    · have hst := record_mem_store fuel
        ((s1.store x).emit ((Stream.cerr, "this happened") ::
          (a ++ [x]).flatMap recordWrites)).restart
        s1.gcThreadid y.address y.access_size y.mem_op_type rfl
        (show 0 + 1 < LOG_SIZE by decide)
      rw [hy] at hst
      refine ⟨((s1.store x).emit ((Stream.cerr, "this happened") ::
          (a ++ [x]).flatMap recordWrites)).restart.store y, ?_, ?_, ?_, rfl, ?_⟩
      · rw [show a ++ [x, y] = (a ++ [x]) ++ [y] by simp, List.map_append, run_append, hrun1]
        simp only [List.map_cons, List.map_nil, run, accessOf, step]
        rw [← h5, hst]
      · show (0 + 1) % WORD = 1
        decide
      · simp [State.store, State.restart]
      · show ((s1.store x).emit _).cerrLines = _
        rw [cerrLines_emit, ← List.singleton_append, cerrOf_append, cerrOf_flatMap]
        have e1 : (s1.store x).cerrLines = s0.cerrLines := by
          show s1.cerrLines = _
          unfold State.cerrLines
          rw [h3]
        rw [e1]
        rfl

/-- Claim C7, amended, at an instance: `LOG_SIZE + 1` reads of 4 bytes at
`0x1000`. -/
theorem capacity_plus_one_witness :
    (2 ^ 61 ≤ 2 ^ 61 ∧ State.init.arrayOffset = 0 ∧
      (List.replicate 999999 (MEM_INFO.mk 0x1000 0 4 0)).length + 1 = LOG_SIZE ∧
      ∀ d ∈ List.replicate 999999 (MEM_INFO.mk 0x1000 0 4 0) ++
          [MEM_INFO.mk 0x1000 0 4 0, MEM_INFO.mk 0x1000 0 4 0],
        Good d ∧ d.cycle_num = 0) ∧
    ((∀ k, k ≤ (List.replicate 999999 (MEM_INFO.mk 0x1000 0 4 0)).length →
      ∃ s, run (2 ^ 61) State.init
          (((List.replicate 999999 (MEM_INFO.mk 0x1000 0 4 0)).take k).map
            (accessOf State.init.gcThreadid)) = .ok s ∧
        s.arrayOffset = k ∧ s.log = State.init.log) ∧
    ∃ s, run (2 ^ 61) State.init
        ((List.replicate 999999 (MEM_INFO.mk 0x1000 0 4 0) ++ [MEM_INFO.mk 0x1000 0 4 0]).map
          (accessOf State.init.gcThreadid)) = .ok s ∧
      s.arrayOffset = 0 ∧
      s.log = State.init.log ++ (Stream.cerr, "this happened") ::
        (List.replicate 999999 (MEM_INFO.mk 0x1000 0 4 0) ++
          [MEM_INFO.mk 0x1000 0 4 0]).flatMap recordWrites ∧
      ∃ s1, run (2 ^ 61) State.init
          ((List.replicate 999999 (MEM_INFO.mk 0x1000 0 4 0) ++
            [MEM_INFO.mk 0x1000 0 4 0, MEM_INFO.mk 0x1000 0 4 0]).map
            (accessOf State.init.gcThreadid)) = .ok s1 ∧
        s1.arrayOffset = 1 ∧ s1.memValues 0 = MEM_INFO.mk 0x1000 0 4 0 ∧ s1.log = s.log ∧
        s1.cerrLines = State.init.cerrLines ++ ["this happened"]) :=
  have hlen : (List.replicate 999999 (MEM_INFO.mk 0x1000 0 4 0)).length + 1 = LOG_SIZE := by
    rw [List.length_replicate]; rfl
  have hg : ∀ d ∈ List.replicate 999999 (MEM_INFO.mk 0x1000 0 4 0) ++
      [MEM_INFO.mk 0x1000 0 4 0, MEM_INFO.mk 0x1000 0 4 0], Good d ∧ d.cycle_num = 0 := by
    intro d hd
    have hd1 : d = MEM_INFO.mk 0x1000 0 4 0 := by
      rcases List.mem_append.1 hd with h | h
      · exact List.eq_of_mem_replicate h
      · simp only [List.mem_cons, List.mem_singleton, List.not_mem_nil, or_false, or_self] at h
        exact h
    rw [hd1]
    decide
  ⟨⟨le_refl _, rfl, hlen, hg⟩,
    capacity_plus_one (2 ^ 61) (le_refl _) State.init rfl
      (List.replicate 999999 (MEM_INFO.mk 0x1000 0 4 0)) (MEM_INFO.mk 0x1000 0 4 0)
      (MEM_INFO.mk 0x1000 0 4 0) hlen hg⟩

/-- Claim C8. Along every run from the initial state, whatever the events and
however it ends, the write offset is at most `LOG_SIZE`; whenever the run has
not halted the offset is below `LOG_SIZE`, so the next `record_mem` writes a
slot inside `memValues`; the flush at exit does not move the offset. -/
theorem arrayOffset_within_capacity (fuel : Nat) (es : List Event) :
    (run fuel State.init es).state.arrayOffset ≤ LOG_SIZE ∧
      ((run fuel State.init es).isOk = true →
        (run fuel State.init es).state.arrayOffset < LOG_SIZE) ∧
      (runToExit fuel State.init es).state.arrayOffset ≤ LOG_SIZE := by
  have hb := run_bound fuel es State.init (by decide)
  refine ⟨hb.1, hb.2, ?_⟩
  unfold runToExit
  generalize run fuel State.init es = r at hb
  cases r with
  | ok s1 =>
    have h1 := hb.2 rfl
    simp only [Outcome.state] at h1
    simp only [Fini]
    obtain ⟨l, hl⟩ := writeOutMemLog_frame fuel
      (if s1.somethingFailed = true then
        (s1.write Stream.out "something failed so I'm not printing out any results").write
          Stream.cerr "something failed so I'm not printing out any results"
      else s1)
    rw [hl]
    split <;> simp only [State.emit, State.write] <;> omega
  | abort s1 => exact hb.1
  | timeout s1 => exact hb.1

/-- Claim C9, counterexample. Scenario D: thread 5 is traced and delivers one
access with operation 7. The run halts in the flush at exit with
`somethingFailed` still false, nothing on `*out`, and one message on `cerr`. -/
theorem unrecognised_operation_leaves_guard_unset :
    (run 4 State.init [Event.simulationBegin 5, Event.access 5 0x1000 4 7]).isOk = true ∧
      (runToExit 4 State.init
        [Event.simulationBegin 5, Event.access 5 0x1000 4 7]).isAbort = true ∧
      (runToExit 4 State.init
        [Event.simulationBegin 5, Event.access 5 0x1000 4 7]).state.somethingFailed = false ∧
      (runToExit 4 State.init
        [Event.simulationBegin 5, Event.access 5 0x1000 4 7]).state.outLines = [] ∧
      (runToExit 4 State.init
        [Event.simulationBegin 5, Event.access 5 0x1000 4 7]).state.cerrLines =
          ["didn't recognize mem op type: 7"] := by
  decide

/-- Claim C9, amended. `record_mem` stores an accepted access with any
operation without failing when the append does not fill the buffer, and
`somethingFailed` is false at the end of every run from the initial state.
Whenever a flush, the automatic one inside `record_mem` or the one at exit,
finds in slot `i` an operation outside `{0, 1, 2}` on a record with at least
one chunk, after good records only, the process halts in `memOpToString`: the
records before slot `i` have their lines on `*out`, the record itself has
none, `cerr` has received exactly one message, `didn't recognize mem op type: `
followed by the operation as a signed 32-bit number, `*out` has received
nothing about the failure, and `somethingFailed` is unchanged. -/
theorem unrecognised_operation_halts_flush (fuel : Nat) (hf : 2 ^ 61 ≤ fuel) (s : State)
    (hn : s.arrayOffset ≤ LOG_SIZE) (i : Nat) (hi : i < s.arrayOffset)
    (hg : ∀ j, j < i → Good (s.memValues j)) (hop : 2 < (s.memValues i).mem_op_type)
    (h32 : (s.memValues i).mem_op_type < 2 ^ 32)
    (hch : chunkStart (s.memValues i) ≤ chunkEnd (s.memValues i)) :
    (∀ (s0 : State) (t ea len ty : Nat), t = s0.gcThreadid → s0.arrayOffset + 1 < LOG_SIZE →
        record_mem fuel s0 t ea len ty = .ok (s0.store (MEM_INFO.mk ea ty len 0)) ∧
        (s0.store (MEM_INFO.mk ea ty len 0)).log = s0.log ∧
        (s0.store (MEM_INFO.mk ea ty len 0)).memValues s0.arrayOffset =
          MEM_INFO.mk ea ty len 0) ∧
      writeOutMemLog fuel s = .abort (haltedAt s i) ∧
      (∀ (s0 : State) (t ea len ty : Nat), t = s0.gcThreadid →
        s0.arrayOffset + 1 = LOG_SIZE →
        (s0.store (MEM_INFO.mk ea ty len 0)).write Stream.cerr "this happened" = s →
        record_mem fuel s0 t ea len ty = .abort (haltedAt s i)) ∧
      (s.somethingFailed = false → Fini fuel s = .abort (haltedAt s i)) ∧
      (∀ es, run fuel State.init es = .ok s →
        runToExit fuel State.init es = .abort (haltedAt s i)) ∧
      (haltedAt s i).somethingFailed = s.somethingFailed ∧
      (haltedAt s i).outLines =
        s.outLines ++ ((List.range i).map s.memValues).flatMap recordLines ∧
      (haltedAt s i).cerrLines = s.cerrLines ++
        ["didn't recognize mem op type: " ++ signedDecimal (s.memValues i).mem_op_type] ∧
      ((s.memValues i).mem_op_type < 2 ^ 31 →
        signedDecimal (s.memValues i).mem_op_type = decimal (s.memValues i).mem_op_type) ∧
      (2 ^ 31 ≤ (s.memValues i).mem_op_type →
        signedDecimal (s.memValues i).mem_op_type =
          "-" ++ decimal (2 ^ 32 - (s.memValues i).mem_op_type)) ∧
      ∀ (f : Nat) (es : List Event), (runToExit f State.init es).state.somethingFailed = false
    := by
  have hflush := writeOutMemLog_unrecognised fuel hf s hn i hi hg hop hch
  have hmod : (s.memValues i).mem_op_type % 2 ^ 32 = (s.memValues i).mem_op_type :=
    Nat.mod_eq_of_lt h32
  refine ⟨?_, hflush, ?_, ?_, ?_, rfl, ?_, ?_, ?_, ?_, ?_⟩
  · intro s0 t ea len ty ht hlt
    exact ⟨record_mem_store fuel s0 t ea len ty ht hlt, rfl, by simp [State.store]⟩
  · intro s0 t ea len ty ht hfull hs
    have hlt : s0.arrayOffset < LOG_SIZE := by omega
    rw [record_mem_accept fuel s0 t ea len ty ht, store_offset s0 _ hlt, if_pos hfull, hs,
      hflush]
    rfl
  · intro hsf
    unfold Fini
    rw [hsf]
    exact hflush
  · intro es hes
    have hsf : s.somethingFailed = false := by
      have := run_guard fuel es State.init
      rw [hes] at this
      exact this
    simp only [runToExit, hes, Fini]
    rw [hsf]
    exact hflush
  · unfold haltedAt
    rw [outLines_emit, outOf_append, outOf_flatMap]
    simp [outOf]
  · unfold haltedAt
    rw [cerrLines_emit, cerrOf_append, cerrOf_flatMap]
    simp [cerrOf]
  · intro h
    unfold signedDecimal
    rw [hmod, if_pos h]
  · intro h
    unfold signedDecimal
    rw [hmod, if_neg (by omega)]
  · intro f es
    exact runToExit_guard f es State.init

/-- Claim C9, amended, at an instance of Scenario D with one good record in
front: the flush at exit prints the line of the good record and halts at
slot 1. -/
theorem unrecognised_operation_halts_flush_witness :
    (2 ^ 61 ≤ 2 ^ 61 ∧ scenarioD.arrayOffset ≤ LOG_SIZE ∧ 1 < scenarioD.arrayOffset ∧
      (∀ j, j < 1 → Good (scenarioD.memValues j)) ∧
      2 < (scenarioD.memValues 1).mem_op_type ∧
      (scenarioD.memValues 1).mem_op_type < 2 ^ 32 ∧
      chunkStart (scenarioD.memValues 1) ≤ chunkEnd (scenarioD.memValues 1)) ∧
    ((run 4 State.init [Event.simulationBegin 5, Event.access 5 0x2000 4 0,
        Event.access 5 0x1000 4 7]).isOk = true ∧
      (runToExit 4 State.init [Event.simulationBegin 5, Event.access 5 0x2000 4 0,
        Event.access 5 0x1000 4 7]).isAbort = true ∧
      (runToExit 4 State.init [Event.simulationBegin 5, Event.access 5 0x2000 4 0,
        Event.access 5 0x1000 4 7]).state.outLines = ["0x2000 READ   0"] ∧
      (runToExit 4 State.init [Event.simulationBegin 5, Event.access 5 0x2000 4 0,
        Event.access 5 0x1000 4 7]).state.cerrLines = ["didn't recognize mem op type: 7"] ∧
      (haltedAt scenarioD 1).outLines = ["0x2000 READ   0"] ∧
      (haltedAt scenarioD 1).cerrLines = ["didn't recognize mem op type: 7"] ∧
      signedDecimal 4294967295 = "-1" ∧ signedDecimal 2147483648 = "-2147483648") ∧
    ((∀ (s0 : State) (t ea len ty : Nat), t = s0.gcThreadid → s0.arrayOffset + 1 < LOG_SIZE →
        record_mem (2 ^ 61) s0 t ea len ty = .ok (s0.store (MEM_INFO.mk ea ty len 0)) ∧
        (s0.store (MEM_INFO.mk ea ty len 0)).log = s0.log ∧
        (s0.store (MEM_INFO.mk ea ty len 0)).memValues s0.arrayOffset =
          MEM_INFO.mk ea ty len 0) ∧
      writeOutMemLog (2 ^ 61) scenarioD = .abort (haltedAt scenarioD 1) ∧
      (∀ (s0 : State) (t ea len ty : Nat), t = s0.gcThreadid →
        s0.arrayOffset + 1 = LOG_SIZE →
        (s0.store (MEM_INFO.mk ea ty len 0)).write Stream.cerr "this happened" = scenarioD →
        record_mem (2 ^ 61) s0 t ea len ty = .abort (haltedAt scenarioD 1)) ∧
      (scenarioD.somethingFailed = false →
        Fini (2 ^ 61) scenarioD = .abort (haltedAt scenarioD 1)) ∧
      (∀ es, run (2 ^ 61) State.init es = .ok scenarioD →
        runToExit (2 ^ 61) State.init es = .abort (haltedAt scenarioD 1)) ∧
      (haltedAt scenarioD 1).somethingFailed = scenarioD.somethingFailed ∧
      (haltedAt scenarioD 1).outLines =
        scenarioD.outLines ++ ((List.range 1).map scenarioD.memValues).flatMap recordLines ∧
      (haltedAt scenarioD 1).cerrLines = scenarioD.cerrLines ++
        ["didn't recognize mem op type: " ++
          signedDecimal (scenarioD.memValues 1).mem_op_type] ∧
      ((scenarioD.memValues 1).mem_op_type < 2 ^ 31 →
        signedDecimal (scenarioD.memValues 1).mem_op_type =
          decimal (scenarioD.memValues 1).mem_op_type) ∧
      (2 ^ 31 ≤ (scenarioD.memValues 1).mem_op_type →
        signedDecimal (scenarioD.memValues 1).mem_op_type =
          "-" ++ decimal (2 ^ 32 - (scenarioD.memValues 1).mem_op_type)) ∧
      ∀ (f : Nat) (es : List Event),
        (runToExit f State.init es).state.somethingFailed = false) :=
  have hg : ∀ j, j < 1 → Good (scenarioD.memValues j) := by
    intro j hj
    have h0 : j = 0 := by omega
    subst h0
    decide
  ⟨⟨le_refl _, by decide, by decide, hg, by decide, by decide, by decide⟩, by decide,
    unrecognised_operation_halts_flush (2 ^ 61) (le_refl _) scenarioD (by decide) 1 (by decide)
      hg (by decide) (by decide) (by decide)⟩

/-- Claim C10, the failing inputs. With one buffered record whose last chunk is
the highest aligned address (address `0xFFFFFFFFFFFFFFF8` with size 1, or
address 0 with size 0) the flush at exit uses up every iteration budget: it
has written `fuel` lines when the budget `fuel` is exhausted. After
`0xFFFFFFFFFFFFFFF8` the loop variable wraps to 0 and the guard holds again. -/
theorem flush_at_top_chunk_never_returns (fuel : Nat) :
    ((runToExit fuel State.init [Event.access 0 0xFFFFFFFFFFFFFFF8 1 0]).isTimeout = true ∧
      (runToExit fuel State.init [Event.access 0 0xFFFFFFFFFFFFFFF8 1 0]).state.log.length
        = fuel) ∧
    ((runToExit fuel State.init [Event.access 0 0 0 0]).isTimeout = true ∧
      (runToExit fuel State.init [Event.access 0 0 0 0]).state.log.length = fuel) ∧
    chunkEnd (MEM_INFO.mk 0xFFFFFFFFFFFFFFF8 0 1 0) = 0xFFFFFFFFFFFFFFF8 ∧
    chunkEnd (MEM_INFO.mk 0 0 0 0) = 0xFFFFFFFFFFFFFFF8 ∧
    (runToExit 3 State.init [Event.access 0 0xFFFFFFFFFFFFFFF8 1 0]).state.outLines =
      ["0xFFFFFFFFFFFFFFF8 READ   0", "0x0 READ   0", "0x8 READ   0"] :=
  ⟨single_top (MEM_INFO.mk 0xFFFFFFFFFFFFFFF8 0 1 0) (by decide) (by decide) rfl fuel,
    single_top (MEM_INFO.mk 0 0 0 0) (by decide) (by decide) rfl fuel,
    by decide, by decide, by decide⟩

end GCTracer
